import Mathlib

/-!
# PhotoDateFix

A model of the program `main.go`, which shifts the capture time in the EXIF data of the
JPEG files of a directory, and proofs about it.

Conventions of the model:

* A Go string is the list of its runes; the texts the program compares or cuts (the comma,
  the dot, the extension, the dollar sign, the path separator) are ASCII, so that cutting
  by runes and cutting by bytes agree.
* The regular expression of the program is a syntax tree, matched by a backtracking
  matcher that lists the matches in Go's order of preference (leftmost first, greedy
  operators taking the longer alternative first).
* A `time.Time` is a count of seconds since January 1 of year 1 with the nanoseconds
  within the second and a location; int64 arithmetic is arithmetic on integers followed
  by `wrap64`.
* A call that panics or exits returns `Except.error`; functions that change the files or
  write to the log take the state of the world and return the new one.
* The libraries the program calls without the model defining them (the EXIF codec,
  `strconv.ParseFloat`, `time.Parse`, the Unicode tables, `os.Stat`, `os.Mkdir`) are
  parameters; `filepath.Walk` runs over the file tree as a value.
-/

namespace PhotoDateFix

/-- A Go string, read as its sequence of runes. -/
abbrev Str := List Char

/-- Regular-expression syntax tree: the operators of Go's `regexp/syntax` that the
pattern of `imageRegex` uses. -/
inductive Regex where
  /-- A literal rune (`OpLiteral`). -/
  | lit (c : Char)
  /-- A literal rune under the flag `i` (`OpLiteral` with `FoldCase`). -/
  | litFold (c : Char)
  /-- The dot without the flag `s`: any rune but the newline (`OpAnyCharNotNL`). -/
  | anyCharNotNL
  /-- The dollar sign without the flag `m`: the end of the text (`OpEndText`). -/
  | endText
  /-- One expression after the other (`OpConcat`). -/
  | cat (a b : Regex)
  /-- Greedy `r?` (`OpQuest`). -/
  | quest (r : Regex)
  /-- Greedy `r*` (`OpStar`). -/
  | star (r : Regex)
  /-- The capturing group numbered `i` (`OpCapture`). -/
  | capture (i : Nat) (r : Regex)
  deriving DecidableEq

/-- One thread of the matcher: the position reached, the input still unread and the
capture registers written so far (latest first). -/
structure Thread where
  pos : Nat
  rest : Str
  caps : List (Nat × Nat × Nat)
  deriving DecidableEq

/-- Runes that `unicode.SimpleFold` puts in the orbit of an ASCII letter. -/
def foldOrbit (c : Char) : List Char :=
  if c = 'k' ∨ c = 'K' then ['k', 'K', Char.ofNat 0x212A]
  else if c = 's' ∨ c = 'S' then ['s', 'S', Char.ofNat 0x17F]
  else [c.toLower, c.toUpper]

/-- Greedy iteration: try one more round of `step` (which must consume input) before
giving up the loop. -/
def starIter (step : Thread → List Thread) : Nat → Thread → List Thread
  | 0, t => [t]
  | n + 1, t =>
    ((step t).filter (fun u => t.pos < u.pos)).flatMap (starIter step n) ++ [t]

/-- All ways the expression can match at a thread, in the matcher's order of preference
(leftmost-first: greedy operators try the longer alternative first). -/
def Regex.run : Regex → Thread → List Thread
  | .lit c, t =>
    match t.rest with
    | x :: xs => if x = c then [⟨t.pos + 1, xs, t.caps⟩] else []
    | [] => []
  | .litFold c, t =>
    match t.rest with
    | x :: xs => if x ∈ foldOrbit c then [⟨t.pos + 1, xs, t.caps⟩] else []
    | [] => []
  | .anyCharNotNL, t =>
    match t.rest with
    | x :: xs => if x = '\n' then [] else [⟨t.pos + 1, xs, t.caps⟩]
    | [] => []
  | .endText, t => if t.rest = [] then [t] else []
  | .cat a b, t => (a.run t).flatMap b.run
  | .quest r, t => r.run t ++ [t]
  | .star r, t => starIter r.run t.rest.length t
  | .capture i r, t => (r.run t).map (fun u => ⟨u.pos, u.rest, (i, t.pos, u.pos) :: u.caps⟩)

/-- A match: where it starts, where it ends, and the capture registers. -/
structure Match where
  start : Nat
  stop : Nat
  caps : List (Nat × Nat × Nat)
  deriving DecidableEq

/-- Leftmost match of `re` in the text whose unread part from position `pos` is `rest`. -/
def Regex.search (re : Regex) : Nat → Str → Option Match
  | pos, [] =>
    match re.run ⟨pos, [], []⟩ with
    | t :: _ => some ⟨pos, t.pos, t.caps⟩
    | [] => none
  | pos, c :: cs =>
    match re.run ⟨pos, c :: cs, []⟩ with
    | t :: _ => some ⟨pos, t.pos, t.caps⟩
    | [] => re.search (pos + 1) cs

/-- Model of `(*Regexp).MatchString`. -/
def Regex.MatchString (re : Regex) (s : Str) : Bool :=
  (re.search 0 s).isSome

/-- Model of `imageRegex = regexp.MustCompile("(?i)(.*)\.(jpe?g)$")`. -/
def imageRegex : Regex :=
  .cat (.capture 1 (.star .anyCharNotNL))
    (.cat (.lit '.')
      (.cat (.capture 2 (.cat (.litFold 'j') (.cat (.litFold 'p') (.cat (.quest (.litFold 'e')) (.litFold 'g')))))
        .endText))

/-- The extension `jpg` or `jpeg` in any mix of upper- and lower-case letters. -/
def IsJpegExt (ext : Str) : Prop :=
  ext.map Char.toLower = ['j', 'p', 'g'] ∨ ext.map Char.toLower = ['j', 'p', 'e', 'g']

/-- The name ends with a dot followed by `jpg` or `jpeg` in any mix of letter cases. -/
def HasJpegExtension (s : Str) : Prop :=
  ∃ base ext, s = base ++ '.' :: ext ∧ IsJpegExt ext

/-- The slice `src[a:b]` of a Go string. -/
def slice (src : Str) (a b : Nat) : Str :=
  (src.take b).drop a

/-- Model of `strings.Cut(s, sep)` for a one-rune separator: the text before and after the first
occurrence, or `none` when the separator does not occur. -/
def cut (sep : Char) : Str → Option (Str × Str)
  | [] => none
  | c :: cs =>
    if c = sep then some ([], cs)
    else match cut sep cs with
      | some (before, after) => some (c :: before, after)
      | none => none

/-- The test `unicode.IsLetter(r) || unicode.IsDigit(r) || r == '_'` of `regexp.extract`.
For ASCII runes the answer is fixed; for the others it is read from the Unicode tables
`uni`, which stay a parameter. -/
def isNameRune (uni : Char → Bool) (c : Char) : Bool :=
  if c.toNat < 128 then c.isAlphanum || c == '_' else uni c

/-- The number-parsing loop of `regexp.extract`; `none` stands for `num = -1`. -/
def extractNum : Str → Nat → Option Nat
  | [], num => some num
  | c :: cs, num =>
    if c.toNat < '0'.toNat ∨ '9'.toNat < c.toNat ∨ num ≥ 100000000 then none
    else extractNum cs (num * 10 + (c.toNat - '0'.toNat))

/-- Model of `regexp.extract`: the name from a leading `name` or `{name}` (the `$` already removed),
its value as a group number if it is one, and the rest of the template. -/
def extract (uni : Char → Bool) (str : Str) : Option (Str × Option Nat × Str) :=
  match str with
  | [] => none
  | c :: cs =>
    let brace : Bool := c == '{'
    let str := if brace then cs else c :: cs
    let name := str.takeWhile (isNameRune uni)
    let after := str.dropWhile (isNameRune uni)
    if name = [] then none
    else
      let num := if name.head? = some '0' ∧ 1 < name.length then none else extractNum name 0
      if brace then
        match after with
        | d :: rest => if d = '}' then some (name, num, rest) else none
        | [] => none
      else some (name, num, after)

/-- The text of capture group `n` of a match (group 0 is the whole match); groups that did
not take part in the match, or that the expression does not have, give the empty text. -/
def Match.group (m : Match) (src : Str) (n : Nat) : Str :=
  if n = 0 then slice src m.start m.stop
  else match m.caps.lookup n with
    | some (a, b) => slice src a b
    | none => []

/-- The loop of `(*Regexp).expand` for an expression without named groups. -/
def expandLoop (uni : Char → Bool) (src : Str) (m : Match) : Nat → Str → Str → Str
  | 0, dst, template => dst ++ template
  | fuel + 1, dst, template =>
    if template = [] then dst
    else match cut '$' template with
      | none => dst ++ template
      | some (before, after) =>
        match after with
        | '$' :: rest => expandLoop uni src m fuel (dst ++ before ++ ['$']) rest
        | _ =>
          match extract uni after with
          | none => expandLoop uni src m fuel (dst ++ before ++ ['$']) after
          | some (_, some num, rest) =>
            expandLoop uni src m fuel (dst ++ before ++ m.group src num) rest
          | some (_, none, rest) => expandLoop uni src m fuel (dst ++ before) rest

/-- Model of `(*Regexp).expand`. -/
def expand (uni : Char → Bool) (template src : Str) (m : Match) : Str :=
  expandLoop uni src m (template.length + 1) [] template

/-- The loop of `(*Regexp).replaceAll`, positions counted in runes. -/
def replaceAllLoop (re : Regex) (src : Str) (repl : Match → Str) :
    Nat → Nat → Nat → Str → Str
  | 0, lastMatchEnd, _, buf => buf ++ src.drop lastMatchEnd
  | fuel + 1, lastMatchEnd, searchPos, buf =>
    if searchPos ≤ src.length then
      match re.search searchPos (src.drop searchPos) with
      | none => buf ++ src.drop lastMatchEnd
      | some a =>
        let buf := buf ++ slice src lastMatchEnd a.start
        let buf := if a.stop > lastMatchEnd ∨ a.start = 0 then buf ++ repl a else buf
        let width := if searchPos < src.length then 1 else 0
        let next :=
          if searchPos + width > a.stop then searchPos + width
          else if searchPos + 1 > a.stop then searchPos + 1
          else a.stop
        replaceAllLoop re src repl fuel a.stop next buf
    else buf ++ src.drop lastMatchEnd

/-- Model of `(*Regexp).ReplaceAllString`. -/
def Regex.ReplaceAllString (uni : Char → Bool) (re : Regex) (src repl : Str) : Str :=
  replaceAllLoop re src (fun m => expand uni repl src m) (src.length + 2) 0 0 []

/-- The destination file name that `main` computes:
`imageRegex.ReplaceAllString(name, fmt.Sprintf("$\x7b1\x7d%s.$\x7b2\x7d", *nameSuffix))`. -/
def newName (uni : Char → Bool) (name nameSuffix : Str) : Str :=
  imageRegex.ReplaceAllString uni name ("$\x7b1\x7d".toList ++ nameSuffix ++ ".$\x7b2\x7d".toList)

/-- The backward scan of `filepath.Clean` on a `..` element: starting from write index `w`,
step back while `w > dotdot` and `out[w]` is not a separator. -/
def cleanBacktrack (out : Str) (dotdot : Nat) : Nat → Nat
  | 0 => 0
  | w + 1 =>
    if w + 1 > dotdot ∧ out.getD (w + 1) '/' ≠ '/' then cleanBacktrack out dotdot w
    else w + 1

/-- The main loop of `filepath.Clean` (Unix): `path` is the part still to read, `out` the
buffer written so far, `dotdot` the index in `out` where `..` must stop. -/
def cleanLoop (rooted : Bool) : Nat → Str → Str → Nat → Str
  | 0, _, out, _ => out
  | fuel + 1, path, out, dotdot =>
    match path with
    | [] => out
    | c :: rest =>
      if c = '/' then
        cleanLoop rooted fuel rest out dotdot
      else if c = '.' ∧ (rest = [] ∨ rest.head? = some '/') then
        cleanLoop rooted fuel rest out dotdot
      else if c = '.' ∧ rest.head? = some '.' ∧
          (rest.tail = [] ∨ rest.tail.head? = some '/') then
        if out.length > dotdot then
          cleanLoop rooted fuel rest.tail
            (out.take (cleanBacktrack out dotdot (out.length - 1))) dotdot
        else if !rooted then
          let out := (if out.length > 0 then out ++ ['/'] else out) ++ ['.', '.']
          cleanLoop rooted fuel rest.tail out out.length
        else
          cleanLoop rooted fuel rest.tail out dotdot
      else
        let out := if (rooted ∧ out.length ≠ 1) ∨ (!rooted ∧ out.length ≠ 0) then out ++ ['/'] else out
        cleanLoop rooted fuel ((c :: rest).dropWhile (fun x => x ≠ '/'))
          (out ++ (c :: rest).takeWhile (fun x => x ≠ '/')) dotdot

/-- Model of `filepath.Clean` on Unix (no volume names, separator `/`). -/
def Clean (path : Str) : Str :=
  if path = [] then ['.']
  else
    let rooted : Bool := path.head? = some '/'
    let out :=
      if rooted then cleanLoop rooted (path.length + 1) path.tail ['/'] 1
      else cleanLoop rooted (path.length + 1) path [] 0
    if out = [] then ['.'] else out

/-- Model of `filepath.Join` on Unix: the elements from the first non-empty one on, joined by the
separator and cleaned; the empty string when there is none. -/
def Join : List Str → Str
  | [] => []
  | e :: es => if e ≠ [] then Clean (List.intercalate ['/'] (e :: es)) else Join es

/-- Error values the program builds or receives from a library call. -/
inductive Err where
  /-- The error `errors.New(fmt.Sprintf("Can't parce location '%s'", locationString))`. -/
  | cantParceLocation (locationString : Str)
  /-- The error `errors.New(fmt.Sprintf("Can't parce location '%s': %#v", locationString, err))`. -/
  | cantParceLocationErr (locationString : Str) (err : Str)
  /-- The error `errors.New("Can't get date from file exif")`. -/
  | cantGetDate
  /-- An error returned by the operating system or by a library. -/
  | other (text : Str)
  deriving DecidableEq

/-- The ways a call can end without returning to its caller. -/
inductive Abort where
  /-- The panic raised by `CheckErrorFatal`. -/
  | fatal (err : Err)
  /-- The run-time panic of an index expression out of range. -/
  | indexOutOfRange
  /-- The call `os.Exit(code)`. -/
  | exit (code : Nat)
  deriving DecidableEq

/-- Model of `CheckErrorFatal`: panics when the error is not nil. -/
def CheckErrorFatal (err : Option Err) : Except Abort Unit :=
  match err with
  | some e => .error (.fatal e)
  | none => .ok ()

/-- Model of `strings.Split(s, sep)` for a one-rune separator: the fields between the occurrences
of the separator, one more than there are separators. -/
def Split (sep : Char) : Str → List Str
  | [] => [[]]
  | c :: cs =>
    if c = sep then [] :: Split sep cs
    else match Split sep cs with
      | f :: fs => (c :: f) :: fs
      | [] => [[c]]

/-- Model of `parceLocationString`. `ParseFloat` stands for `strconv.ParseFloat(·, 64)` with values
in the float type `F`; an index expression on `splitted` is a run-time panic when out of
range. -/
def parceLocationString {F : Type} (ParseFloat : Str → Except Str F) (locationString : Str) :
    Except Abort (F × F) :=
  let splitted := Split ',' locationString
  match (if splitted.length ≠ 2 then
      CheckErrorFatal (some (.cantParceLocation locationString)) else .ok ()) with
  | .error a => .error a
  | .ok () =>
    match splitted.get? 0 with
    | none => .error .indexOutOfRange
    | some s0 =>
      match ParseFloat s0 with
      | .error err => .error (.fatal (.cantParceLocationErr locationString err))
      | .ok lat =>
        match splitted.get? 1 with
        | none => .error .indexOutOfRange
        | some s1 =>
          match ParseFloat s1 with
          | .error err => .error (.fatal (.cantParceLocationErr locationString err))
          | .ok lon => .ok (lat, lon)

/-- Model of `time.Location`: a name, the offset (seconds east of UTC) in force before the first
transition, and the transitions `(instant, offset)` in increasing order of instant. -/
structure Location where
  name : Str
  initial : Int
  tx : List (Int × Int)
  deriving DecidableEq

/-- The offset a location has at an instant (seconds since January 1, year 1, UTC). -/
def Location.lookup (l : Location) (sec : Int) : Int :=
  l.tx.foldl (fun off p => if p.1 ≤ sec then p.2 else off) l.initial

/-- Model of `time.Time` without a monotonic clock reading: seconds since January 1, year 1
00:00:00 UTC (an int64), nanoseconds within the second, and the location. -/
structure Time where
  sec : Int
  nsec : Int
  loc : Location
  deriving DecidableEq

/-- Model of `time.Duration`: a signed count of nanoseconds (an int64). -/
abbrev Duration := Int

/-- Model of `minDuration = -1 << 63`. -/
def minDuration : Duration := -9223372036854775808

/-- Model of `maxDuration = 1<<63 - 1`. -/
def maxDuration : Duration := 9223372036854775807

/-- The value an `int64` computation keeps of the exact result: the representative of
`x` modulo `2^64 = 18446744073709551616` in `[-2^63, 2^63)`, `2^63 = 9223372036854775808`. -/
def wrap64 (x : Int) : Int :=
  (x + 9223372036854775808) % 18446744073709551616 - 9223372036854775808

/-- Go's integer quotient, truncated toward zero (divisor positive). -/
def quoGo (a b : Int) : Int :=
  if 0 ≤ a then a / b else -((-a) / b)

/-- Go's integer remainder, with the sign of the dividend (divisor positive). -/
def remGo (a b : Int) : Int :=
  a - b * quoGo a b

/-- Model of `(*Time).addSec`: the seconds are added with saturation at the int64 bounds. -/
def Time.addSec (t : Time) (d : Int) : Time :=
  let sum := wrap64 (t.sec + d)
  if decide (sum > t.sec) = decide (d > 0) then { t with sec := sum }
  else if d > 0 then { t with sec := 9223372036854775807 }
  else { t with sec := -9223372036854775807 }

/-- Model of `Time.Add`. -/
def Time.Add (t : Time) (d : Duration) : Time :=
  let dsec := quoGo d 1000000000
  let nsec := t.nsec + remGo d 1000000000
  if nsec ≥ 1000000000 then ({ t with nsec := nsec - 1000000000 } : Time).addSec (dsec + 1)
  else if nsec < 0 then ({ t with nsec := nsec + 1000000000 } : Time).addSec (dsec - 1)
  else ({ t with nsec := nsec } : Time).addSec dsec

/-- Model of `Time.Equal`: the same instant, whatever the locations. -/
def Time.Equal (t u : Time) : Bool :=
  t.sec = u.sec ∧ t.nsec = u.nsec

/-- Model of `Time.Before`. -/
def Time.Before (t u : Time) : Bool :=
  t.sec < u.sec ∨ (t.sec = u.sec ∧ t.nsec < u.nsec)

/-- Model of `Time.Sub`: the duration `t - u`, or the largest (smallest) duration when the
difference does not fit. -/
def Time.Sub (t u : Time) : Duration :=
  let d := wrap64 (wrap64 (wrap64 (t.sec - u.sec) * 1000000000) + (t.nsec - u.nsec))
  if (u.Add d).Equal t then d
  else if t.Before u then minDuration
  else maxDuration

/-- Model of `Time.In`: the same instant with the location set to `loc`. -/
def Time.In (t : Time) (loc : Location) : Time :=
  { t with loc := loc }

/-- Model of `Time.Location`. -/
def Time.Location (t : Time) : Location :=
  t.loc

/-- Model of `Time.abs`: the seconds since January 1, year 1 in the time's own location. -/
def Time.abs (t : Time) : Int :=
  t.sec + t.loc.lookup t.sec

/-- Model of `Time.Clock`: hour, minute and second within the day. -/
def Time.Clock (t : Time) : Int × Int × Int :=
  let s := t.abs % 86400
  (s / 3600, (s % 3600) / 60, s % 60)

/-- Model of `isLeap`. -/
def isLeap (year : Int) : Bool :=
  year % 4 = 0 ∧ (year % 100 ≠ 0 ∨ year % 400 = 0)

/-- Model of `daysBefore[m]`: the days of a non-leap year before month `m + 1`. -/
def daysBefore : List Int :=
  [0, 31, 59, 90, 120, 151, 181, 212, 243, 273, 304, 334, 365]

/-- Model of `absDate`: year, month and day of the month of a count of seconds, by 400-, 100-,
4- and 1-year cycles of days. -/
def absDate (abs : Int) : Int × Int × Int :=
  let d := abs / 86400
  let n400 := d / 146097
  let d := d - 146097 * n400
  let n100 := d / 36524
  let n100 := n100 - n100 / 4
  let d := d - 36524 * n100
  let n4 := d / 1461
  let d := d - 1461 * n4
  let n1 := d / 365
  let n1 := n1 - n1 / 4
  let yday := d - 365 * n1
  let year := 400 * n400 + 100 * n100 + 4 * n4 + n1 + 1
  if isLeap year ∧ yday = 31 + 29 - 1 then (year, 2, 29)
  else
    let day := if isLeap year ∧ yday > 31 + 29 - 1 then yday - 1 else yday
    let month := day / 31
    let stop := daysBefore.getD (month + 1).toNat 0
    if day ≥ stop then (year, month + 2, day - stop + 1)
    else (year, month + 1, day - daysBefore.getD month.toNat 0 + 1)

/-- Model of `Time.Date`: year, month and day of the month in the time's own location. -/
def Time.Date (t : Time) : Int × Int × Int :=
  absDate t.abs

/-- File contents. -/
abbrev Bytes := List Nat

/-- Model of `exif.GPSInfo`, with coordinates in the float type `F`. -/
structure GPSInfo (F : Type) where
  Time : Time
  Lat : F
  Long : F

/-- The calls into `github.com/tajtiattila/metadata/exif` that the program makes, over the
library's metadata values `X`. The library is not part of the program and stays a
parameter. -/
structure ExifLib (F X : Type) where
  /-- Model of `exif.Decode(r)` on a reader over the given bytes. -/
  Decode : Bytes → Except Str X
  /-- Model of `(*Exif).DateTime()`: the capture time, `none` when `ok` is false. -/
  DateTime : X → Option Time
  /-- Model of `(*Exif).SetDateTime(t)`. -/
  SetDateTime : X → Time → X
  /-- Model of `(*Exif).SetGPSInfo(i)`. -/
  SetGPSInfo : X → GPSInfo F → X
  /-- Model of `exif.Copy(w, r, x)` on a reader over the given bytes: the bytes written when it
  succeeds; when it fails, the bytes that had reached the file and the error. -/
  Copy : Bytes → X → Except (Bytes × Str) Bytes

/-- The regular files of the file system, named by the text of their path. -/
structure FS where
  /-- Model of `os.Open(name)` and reading what it holds: the contents or the error. -/
  read : Str → Except Str Bytes
  /-- The error `os.Create(name)` gives, if any. -/
  createErr : Str → Option Str

/-- The file system after `name` got the contents `b`. -/
def FS.write (fs : FS) (name : Str) (b : Bytes) : FS :=
  { fs with read := fun p => if p = name then .ok b else fs.read p }

/-- The lines the program writes with `log.Printf` and `fmt.Printf`. -/
inductive LogEntry (F : Type) where
  /-- The line `"Starting..."`. -/
  | starting
  /-- The line `"EXIF date %s is %s than %s"`. -/
  | exifDate (dateTag realTime : Time)
  /-- The line `"Delta is %dns"`. -/
  | delta (d : Duration)
  /-- Model of `fmt.Printf("%dns\n", *delta)` on standard output. -/
  | printDelta (d : Duration)
  /-- The line `"Source and destination directories match but no suffix is defined, ..."`. -/
  | defaultSuffix (nameSuffix : Str)
  /-- The line `"Creating output directory '%s'"`. -/
  | creatingDir (dst : Str)
  /-- The line `"Going to set timezone to GMT%s"`. -/
  | timezone (offsetTime : Time)
  /-- The line `"prevent panic by handling failure accessing a path %q: %v"`. -/
  | walkFailure (path err : Str)
  /-- The line `"%s => %s: %s => %s%s"`, the last part being the location when `setGPS` is set. -/
  | change (src dst : Str) (dateTag newTime : Time) (gps : Option (F × F))
  /-- The line `"Skipping %s"`. -/
  | skipping (name : Str)
  /-- The line `"skipping a dir without errors: %+v"`. -/
  | skippingDir (name : Str)

/-- The state a run works on: the files and the log written so far. -/
structure World (F : Type) where
  fs : FS
  log : List (LogEntry F)

/-- Model of `log.Printf`. -/
def World.logf {F : Type} (w : World F) (e : LogEntry F) : World F :=
  { w with log := w.log ++ [e] }

/-- Model of `getExifForFile`. -/
def getExifForFile {F X : Type} (lib : ExifLib F X) (fileName : Str) (w : World F) :
    Except Abort X :=
  match w.fs.read fileName with
  | .error e => .error (.fatal (.other e))
  | .ok bytes =>
    match lib.Decode bytes with
    | .error e => .error (.fatal (.other e))
    | .ok metadata => .ok metadata

/-- Model of `getDateTimeDelta`. `Parse` stands for `time.Parse(time.RFC3339, ·)`. -/
def getDateTimeDelta {F X : Type} (lib : ExifLib F X) (Parse : Str → Except Str Time)
    (metadata : X) (realTimeString : Str) (w : World F) : Except Abort Duration × World F :=
  match Parse realTimeString with
  | .error e => (.error (.fatal (.other e)), w)
  | .ok realTime =>
    match lib.DateTime metadata with
    | none => (.error (.fatal .cantGetDate), w)
    | some dateTag => (.ok (realTime.Sub dateTag), w.logf (.exifDate dateTag realTime))

/-- Model of `processFile`. The flag `*dryRun` is the parameter `dryRun`. The source is opened
before the destination is created, and read by `exif.Copy` after: when both are the same
file it is read empty. -/
def processFile {F X : Type} (lib : ExifLib F X) (dryRun : Bool) (src dst : Str)
    (delta : Duration) (_dstZone : Str) (setGPS : Bool) (lat lon : F) (location : Location)
    (w : World F) : Except Abort Unit × World F :=
  match getExifForFile lib src w with
  | .error a => (.error a, w)
  | .ok metadata =>
    match lib.DateTime metadata with
    | none => (.error (.fatal .cantGetDate), w)
    | some dateTag =>
      let newTime := (dateTag.In location).Add delta
      let w := w.logf (.change src dst dateTag newTime (if setGPS then some (lat, lon) else none))
      if dryRun then (.ok (), w)
      else
        let metadata := lib.SetDateTime metadata newTime
        let metadata :=
          if setGPS then lib.SetGPSInfo metadata { Time := newTime, Lat := lat, Long := lon }
          else metadata
        match w.fs.read src with
        | .error e => (.error (.fatal (.other e)), w)
        | .ok bytes =>
          match w.fs.createErr dst with
          | some e => (.error (.fatal (.other e)), w)
          | none =>
            match lib.Copy (if src = dst then [] else bytes) metadata with
            | .error (written, e) =>
              (.error (.fatal (.other e)), { w with fs := w.fs.write dst written })
            | .ok written => (.ok (), { w with fs := w.fs.write dst written })

/-- What the program reads of an `os.FileInfo`: the base name, whether it is a directory,
and the identity of the file that `os.SameFile` compares. -/
structure FileInfo where
  Name : Str
  IsDir : Bool
  id : Nat
  deriving DecidableEq

/-- Model of `os.SameFile`. -/
def SameFile (a b : FileInfo) : Bool :=
  a.id = b.id

/-- The file tree as `filepath.Walk` finds it: for each path what `os.Lstat` gives, and for
a directory what `readDirNames` gives, the entries in lexical order of their names. -/
inductive Tree where
  /-- Anything that is not a directory: its base name and its identity. -/
  | file (name : Str) (id : Nat)
  /-- A directory: its base name, its identity, the error of reading its names if there is
  one, and its entries. -/
  | dir (name : Str) (id : Nat) (readErr : Option Str) (entries : List Tree)
  /-- An entry on which `os.Lstat` fails. -/
  | lstatErr (name : Str) (err : Str)

/-- The name under which a tree is listed in its directory. -/
def Tree.name : Tree → Str
  | .file name _ => name
  | .dir name _ _ _ => name
  | .lstatErr name _ => name

/-- The error values a `filepath.WalkFunc` returns, other than nil. -/
inductive WalkErr where
  /-- Model of `filepath.SkipDir`. -/
  | SkipDir
  /-- Any other error. -/
  | err (text : Str)
  deriving DecidableEq

/-- What the walk function does besides returning: it writes a log line or it calls
`processFile`. -/
inductive Action (F : Type) where
  | log (e : LogEntry F)
  | processFile (src dst : Str) (delta : Duration) (dstZone : Str) (setGPS : Bool)
      (lat lon : F) (location : Location)

/-- A `filepath.WalkFunc`: from the path, the file info (nil when `os.Lstat` failed) and
the error, the actions done, in order, and the error returned. -/
abbrev WalkFunc (F : Type) := Str → Option FileInfo → Option Str → List (Action F) × Option WalkErr

mutual
/-- The recursive `walk` of `path/filepath`: the function is called on a directory after
its names were read, with the error of that reading, and the entries are walked when
neither the reading nor the function gave an error. -/
def walk {F : Type} (fn : WalkFunc F) (path : Str) : Tree → List (Action F) × Option WalkErr
  | .file name id => fn path (some ⟨name, false, id⟩) none
  | .lstatErr _ err => fn path none (some err)
  | .dir name id readErr entries =>
    let r1 := fn path (some ⟨name, true, id⟩) readErr
    if readErr.isSome ∨ r1.2.isSome then r1
    else
      let r2 := walkEntries fn path entries
      (r1.1 ++ r2.1, r2.2)
/-- The loop of `walk` over the names of a directory: an error ends it, except
`filepath.SkipDir` from a directory or from an entry whose `os.Lstat` failed. -/
def walkEntries {F : Type} (fn : WalkFunc F) (path : Str) :
    List Tree → List (Action F) × Option WalkErr
  | [] => ([], none)
  | .lstatErr name err :: ts =>
    let r := fn (Join [path, name]) none (some err)
    if r.2.isSome ∧ r.2 ≠ some .SkipDir then r
    else
      let rs := walkEntries fn path ts
      (r.1 ++ rs.1, rs.2)
  | .file name id :: ts =>
    let r := walk fn (Join [path, name]) (.file name id)
    if r.2.isSome then r
    else
      let rs := walkEntries fn path ts
      (r.1 ++ rs.1, rs.2)
  | .dir name id readErr entries :: ts =>
    let r := walk fn (Join [path, name]) (.dir name id readErr entries)
    if r.2.isSome ∧ r.2 ≠ some .SkipDir then r
    else
      let rs := walkEntries fn path ts
      (r.1 ++ rs.1, rs.2)
end

/-- Model of `filepath.Walk` on a root where `os.Lstat` finds `tree`: `filepath.SkipDir` from the
root is not an error. -/
def Walk {F : Type} (root : Str) (tree : Tree) (fn : WalkFunc F) :
    List (Action F) × Option WalkErr :=
  let r := walk fn root tree
  if r.2 = some .SkipDir then (r.1, none) else r

/-- The command-line flags, after `flag.Parse()`. -/
structure Flags where
  srcPathString : Str
  dstPathString : Str
  nameSuffix : Str
  location : Str
  infoMode : Bool
  fileNameString : Str
  timeString : Str
  offsetString : Str
  delta : Duration
  dryRun : Bool

/-- The default values of the flags. -/
def Flags.defaults : Flags :=
  { srcPathString := ".".toList, dstPathString := ".".toList, nameSuffix := [],
    location := "0.0,0.0".toList, infoMode := false, fileNameString := [], timeString := [],
    offsetString := [], delta := 0, dryRun := false }

/-- Model of `defaultNameSuffix`. -/
def defaultNameSuffix : Str := "_date_fixed".toList

/-- What the program uses of the standard library, of the EXIF library and of the
operating system besides the files' contents. -/
structure Env (F X : Type) where
  lib : ExifLib F X
  /-- Model of `strconv.ParseFloat(·, 64)`. -/
  ParseFloat : Str → Except Str F
  /-- Model of `time.Parse(time.RFC3339, ·)`. -/
  Parse : Str → Except Str Time
  /-- The Unicode tables behind `unicode.IsLetter` and `unicode.IsDigit`, outside ASCII. -/
  uni : Char → Bool
  /-- Model of `os.Stat`: the file info, or the error and whether `os.IsNotExist` holds of it. -/
  Stat : Str → Except (Str × Bool) FileInfo
  /-- The error `os.Mkdir(name, os.ModePerm)` gives, if any. -/
  Mkdir : Str → Option Str
  /-- The file tree that `filepath.Walk` finds at a path. -/
  tree : Str → Tree

/-- The suffix in `*nameSuffix` once `main` has applied the default. -/
def mainNameSuffix (flags : Flags) : Str :=
  if flags.srcPathString = flags.dstPathString ∧ flags.nameSuffix = [] then defaultNameSuffix
  else flags.nameSuffix

/-- The function literal that `main` hands to `filepath.Walk`. The variables it closes over
are parameters: the flags (with the suffix and the delta as `main` has set them), `setGPS`,
`lat`, `lon`, `offsetTime` and `srcPathInfo`. A nil file info with a nil error is a
nil dereference; it is given the error `filepath.Walk` never passes. -/
def walkFn {F : Type} (uni : Char → Bool) (srcPathString dstPathString nameSuffix : Str)
    (delta : Duration) (setGPS : Bool) (lat lon : F) (offsetTime : Time)
    (srcPathInfo : FileInfo) : WalkFunc F :=
  fun path f err =>
    match err with
    | some e => ([.log (.walkFailure path e)], some (.err e))
    | none =>
      match f with
      | none => ([], some (.err []))
      | some f =>
        let a1 : List (Action F) :=
          if !f.IsDir then
            if imageRegex.MatchString f.Name then
              let src := Join [srcPathString, f.Name]
              let dst := Join [dstPathString, newName uni f.Name nameSuffix]
              [.processFile src dst delta [] setGPS lat lon offsetTime.Location]
            else [.log (.skipping f.Name)]
          else []
        if f.IsDir ∧ !SameFile srcPathInfo f then
          (a1 ++ [.log (.skippingDir f.Name)], some .SkipDir)
        else (a1, none)

/-- Carrying out the actions of the walk one after the other; a call of `processFile` that
panics ends the run. -/
def runActions {F X : Type} (lib : ExifLib F X) (dryRun : Bool) :
    List (Action F) → World F → Except Abort Unit × World F
  | [], w => (.ok (), w)
  | .log e :: as, w => runActions lib dryRun as (w.logf e)
  | .processFile src dst delta dstZone setGPS lat lon location :: as, w =>
    match processFile lib dryRun src dst delta dstZone setGPS lat lon location w with
    | (.error a, w) => (.error a, w)
    | (.ok (), w) => runActions lib dryRun as w

/-- What `main` has set up when it reaches `filepath.Walk`. -/
structure Setup (F : Type) where
  delta : Duration
  nameSuffix : Str
  setGPS : Bool
  lat : F
  lon : F
  offsetTime : Time
  srcPathInfo : FileInfo

/-- The part of `main` before `filepath.Walk`: the delta from the reference file, info
mode, the default suffix, the output directory, the location, the timezone and the
`os.Stat` of the source directory. -/
def mainSetup {F X : Type} (env : Env F X) (flags : Flags) (w : World F) :
    Except Abort (Setup F) × World F :=
  let w := w.logf .starting
  let r : Except Abort Duration × World F :=
    if flags.fileNameString ≠ [] then
      match getExifForFile env.lib flags.fileNameString w with
      | .error a => (.error a, w)
      | .ok metadata =>
        match getDateTimeDelta env.lib env.Parse metadata flags.timeString w with
        | (.error a, w) => (.error a, w)
        | (.ok d, w) => (.ok d, w.logf (.delta d))
    else (.ok flags.delta, w)
  match r with
  | (.error a, w) => (.error a, w)
  | (.ok delta, w) =>
    if flags.infoMode then (.error (.exit 0), w.logf (.printDelta delta))
    else
      let nameSuffix := mainNameSuffix flags
      let w :=
        if flags.srcPathString = flags.dstPathString ∧ flags.nameSuffix = [] then
          w.logf (.defaultSuffix nameSuffix)
        else w
      let r : Except Abort Unit × World F :=
        match env.Stat flags.dstPathString with
        | .error (_, true) =>
          let w := w.logf (.creatingDir flags.dstPathString)
          match env.Mkdir flags.dstPathString with
          | some e => (.error (.fatal (.other e)), w)
          | none => (.ok (), w)
        | _ => (.ok (), w)
      match r with
      | (.error a, w) => (.error a, w)
      | (.ok (), w) =>
        match parceLocationString env.ParseFloat flags.location with
        | .error a => (.error a, w)
        | .ok (lat, lon) =>
          let setGPS : Bool := flags.location ≠ []
          match env.Parse ("2006-01-02T15:04:05".toList ++ flags.offsetString) with
          | .error e => (.error (.fatal (.other e)), w)
          | .ok offsetTime =>
            let w := w.logf (.timezone offsetTime)
            match env.Stat flags.srcPathString with
            | .error (e, _) => (.error (.fatal (.other e)), w)
            | .ok srcPathInfo =>
              (.ok { delta := delta, nameSuffix := nameSuffix, setGPS := setGPS, lat := lat,
                     lon := lon, offsetTime := offsetTime, srcPathInfo := srcPathInfo }, w)

/-- The actions of the walk that `main` starts, and the error `filepath.Walk` returns. -/
def mainWalk {F X : Type} (env : Env F X) (flags : Flags) (s : Setup F) :
    List (Action F) × Option WalkErr :=
  Walk flags.srcPathString (env.tree flags.srcPathString)
    (walkFn env.uni flags.srcPathString flags.dstPathString s.nameSuffix s.delta s.setGPS
      s.lat s.lon s.offsetTime s.srcPathInfo)

/-- Model of `main`. -/
def main {F X : Type} (env : Env F X) (flags : Flags) (w : World F) :
    Except Abort Unit × World F :=
  match mainSetup env flags w with
  | (.error a, w) => (.error a, w)
  | (.ok s, w) =>
    let r := mainWalk env flags s
    match runActions env.lib flags.dryRun r.1 w with
    | (.error a, w) => (.error a, w)
    | (.ok (), w) =>
      match r.2 with
      | some (.err e) => (.error (.fatal (.other e)), w)
      | _ => (.ok (), w)

/-- The type invariant of the times the program handles: nanoseconds within the second
and seconds far from the int64 bounds. -/
def Time.inRange (t : Time) : Prop :=
  -4611686018427387904 ≤ t.sec ∧ t.sec ≤ 4611686018427387904 ∧ 0 ≤ t.nsec ∧ t.nsec < 1000000000

/-- The exact difference of two instants in nanoseconds. -/
def Time.nanosBetween (t u : Time) : Int :=
  (t.sec - u.sec) * 1000000000 + (t.nsec - u.nsec)

/-- The invariant of a `time.Time`: nanoseconds within the second, seconds an int64. -/
def Time.valid (t : Time) : Prop :=
  -9223372036854775808 ≤ t.sec ∧ t.sec ≤ 9223372036854775807 ∧
    0 ≤ t.nsec ∧ t.nsec < 1000000000

/-- An exact count of nanoseconds cut to the range of a `time.Duration`. -/
def saturate (d : Int) : Duration :=
  if d < minDuration then minDuration
  else if maxDuration < d then maxDuration
  else d

/-- A plain decimal numeral read exactly: `digits / 10 ^ scale`, without trailing zeros
after the point. -/
structure Decimal where
  digits : Nat
  scale : Nat
  deriving DecidableEq

/-- Dropping the trailing zeros after the point. -/
def Decimal.normalize : Nat → Nat → Decimal
  | d, 0 => ⟨d, 0⟩
  | d, k + 1 => if d % 10 = 0 then Decimal.normalize (d / 10) k else ⟨d, k + 1⟩

/-- The value of a run of decimal digits, `none` when a rune is not a digit. -/
def digitsValue : Str → Nat → Option Nat
  | [], acc => some acc
  | c :: cs, acc =>
    if '0'.toNat ≤ c.toNat ∧ c.toNat ≤ '9'.toNat then digitsValue cs (acc * 10 + (c.toNat - '0'.toNat))
    else none

/-- A stand-in for `strconv.ParseFloat` in examples: a numeral `digits.digits` is read as
its exact decimal value (which `strconv.ParseFloat` rounds to the nearest float64, as the
compiler does for the same numeral in the source of a test); anything else is rejected. -/
def decimalParseFloat (s : Str) : Except Str Decimal :=
  match Split '.' s with
  | [i, f] =>
    if i = [] ∨ f = [] then .error "invalid syntax".toList
    else
      match digitsValue (i ++ f) 0 with
      | some d => .ok (Decimal.normalize d f.length)
      | none => .error "invalid syntax".toList
  | _ => .error "invalid syntax".toList

/-- The location `time.UTC`. -/
def UTC : Location :=
  { name := "UTC".toList, initial := 0, tx := [] }

/-- A stand-in for `time.Parse(time.RFC3339, ·)` in examples, on the three strings they
use; the seconds count from January 1, year 1. -/
def exampleParse (s : Str) : Except Str Time :=
  if s = "2018-05-21T11:31:00Z".toList then .ok ⟨63662499060, 0, UTC⟩
  else if s = "2400-01-01T00:00:00Z".toList then .ok ⟨75705062400, 0, UTC⟩
  else if s = "2006-01-02T15:04:05+03:00".toList then
    .ok ⟨63271800245, 0, { name := [], initial := 10800, tx := [] }⟩
  else .error "cannot parse".toList

/-- A stand-in for the metadata of the EXIF library in examples. -/
structure ExampleExif where
  dateTime : Option Time
  gps : Option (GPSInfo Decimal)

/-- A stand-in for the EXIF library in examples: a file is the list of its numbers, the
first being the capture time in seconds (no first number: no capture time; no number
at all: not decodable); a copy is the source with the new time in front and, when GPS
data is set, its digits and scales behind. -/
def exampleLib : ExifLib Decimal ExampleExif where
  Decode := fun b =>
    match b with
    | [] => .error "EOF".toList
    | 0 :: _ => .ok ⟨none, none⟩
    | sec :: _ => .ok ⟨some ⟨sec, 0, UTC⟩, none⟩
  DateTime := fun x => x.dateTime
  SetDateTime := fun x t => { x with dateTime := some t }
  SetGPSInfo := fun x g => { x with gps := some g }
  Copy := fun b x =>
    match b with
    | [] => .error ([], "EOF".toList)
    | _ :: rest =>
      .ok ((match x.dateTime with | some t => t.sec.toNat | none => 0) :: rest ++
        (match x.gps with
          | some g => [g.Lat.digits, g.Lat.scale, g.Long.digits, g.Long.scale]
          | none => []))

/-- The files of the examples: a reference photo and two photos in the current directory. -/
def exampleFS : FS where
  read := fun p =>
    if p = "ref.jpg".toList then .ok [63662499000, 7]
    else if p = "a.jpg".toList then .ok [63662400000, 1, 2, 3]
    else .error "no such file or directory".toList
  createErr := fun _ => none

/-- The environment of the examples: the current directory holds `a.jpg`, `notes.txt` and
a directory `sub` with `b.jpg` in it. -/
def exampleEnv : Env Decimal ExampleExif where
  lib := exampleLib
  ParseFloat := decimalParseFloat
  Parse := exampleParse
  uni := fun _ => false
  Stat := fun p =>
    if p = ".".toList ∨ p = "./".toList then .ok ⟨".".toList, true, 1⟩
    else .error ("no such file or directory".toList, true)
  Mkdir := fun _ => none
  tree := fun _ =>
    .dir ".".toList 1 none
      [.file "a.jpg".toList 2, .file "notes.txt".toList 3,
        .dir "sub".toList 4 none [.file "b.jpg".toList 5]]

/-- The world the examples start in. -/
def exampleWorld : World Decimal :=
  { fs := exampleFS, log := [] }

/-- An entry of the source directory that is read without error: not one on which
`os.Lstat` fails, and if a directory, one that is not the source directory itself and
whose names can be read. -/
def readableEntry (rootId : Nat) : Tree → Prop
  | .file _ _ => True
  | .dir _ id readErr _ => id ≠ rootId ∧ readErr = none
  | .lstatErr _ _ => False

/-- What the walk is to do with one entry of the source directory: call `processFile` on
a file whose name the matcher accepts, log the skipping of any other file and of a
directory. -/
def expectedActions {F : Type} (uni : Char → Bool) (srcPathString dstPathString nameSuffix : Str)
    (delta : Duration) (setGPS : Bool) (lat lon : F) (offsetTime : Time) :
    Tree → List (Action F)
  | .file name _ =>
    if imageRegex.MatchString name then
      [.processFile (Join [srcPathString, name])
        (Join [dstPathString, newName uni name nameSuffix]) delta [] setGPS lat lon
        offsetTime.Location]
    else [.log (.skipping name)]
  | .dir name _ _ _ => [.log (.skippingDir name)]
  | .lstatErr _ _ => []

/-- The source path an action hands to `processFile`, if it is such a call. -/
def Action.processed {F : Type} : Action F → Option Str
  | .processFile src _ _ _ _ _ _ _ => some src
  | .log _ => none

/-- The source path of an entry of the source directory that is a file with a name the
matcher accepts. -/
def matchingFile (srcPathString : Str) : Tree → Option Str
  | .file name _ => if imageRegex.MatchString name then some (Join [srcPathString, name]) else none
  | .dir _ _ _ _ => none
  | .lstatErr _ _ => none

/-- A source directory holding `a.jpg`, a directory `lost+found` whose names cannot be
read, and `z.jpg`. -/
def unreadableTree : Tree :=
  .dir ".".toList 1 none
    [.file "a.jpg".toList 2, .dir "lost+found".toList 3 (some "permission denied".toList) [],
      .file "z.jpg".toList 4]

/-- The walk function of `main` for `-in . -out out` without a suffix, with delta 0, the
default location and the timezone `+03:00`. -/
def exampleWalkFn : WalkFunc Decimal :=
  walkFn (fun _ => false) ".".toList "out".toList [] 0 true ⟨0, 0⟩ ⟨0, 0⟩
    ⟨63271800245, 0, { name := [], initial := 10800, tx := [] }⟩ ⟨".".toList, true, 1⟩

/-- The part of `imageRegex` after the first group: the dot, the extension and the end
of the text. -/
def imageTail : Regex :=
  .cat (.lit '.')
      (.cat (.capture 2 (.cat (.litFold 'j') (.cat (.litFold 'p') (.cat (.quest (.litFold 'e')) (.litFold 'g')))))
        .endText)


/-- The flags of the examples: a reference photo, the real time it was taken at, the
timezone `+03:00`, and a delta that the reference overrides. -/
def exampleFlags : Flags :=
  { Flags.defaults with
    fileNameString := "ref.jpg".toList, timeString := "2018-05-21T11:31:00Z".toList,
    offsetString := "+03:00".toList, delta := 5 }

/-- What `main` has set up on the examples when it reaches the walk. -/
def exampleSetup : Setup Decimal :=
  { delta := 60000000000, nameSuffix := defaultNameSuffix, setGPS := true, lat := ⟨0, 0⟩,
    lon := ⟨0, 0⟩,
    offsetTime := ⟨63271800245, 0, { name := [], initial := 10800, tx := [] }⟩,
    srcPathInfo := ⟨".".toList, true, 1⟩ }

/-- The threads of `imageRegex` at `t` once its first group, opened at position `p0`, has
taken what the star gives it and the rest of the expression has matched. -/
def afterFirstGroup (p0 : Nat) (t : Thread) : List Thread :=
  ((starIter Regex.anyCharNotNL.run t.rest.length t).map
    (fun u => (⟨u.pos, u.rest, (1, p0, u.pos) :: u.caps⟩ : Thread))).flatMap imageTail.run

theorem imageRegex_eq : imageRegex = .cat (.capture 1 (.star .anyCharNotNL)) imageTail := rfl

theorem ofNat_add32_toNat (n : Nat) (h1 : 65 ≤ n) (h2 : n ≤ 90) :
    (Char.ofNat (n + 32)).toNat = n + 32 := by
  interval_cases n <;> decide

theorem toLower_eq_iff (c l u : Char) (hl : l.toNat = u.toNat + 32)
    (h1 : 65 ≤ u.toNat) (h2 : u.toNat ≤ 90) :
    c.toLower = l ↔ c = l ∨ c = u := by
  unfold Char.toLower
  simp only []
  by_cases hc : c.toNat ≥ 65 ∧ c.toNat ≤ 90
  · rw [if_pos hc]
    constructor
    · intro h
      right
      have h3 := ofNat_add32_toNat c.toNat hc.1 hc.2
      rw [h] at h3
      have h4 : c.toNat = u.toNat := by omega
      rw [← Char.ofNat_toNat c, ← Char.ofNat_toNat u, h4]
    · rintro (h | h)
      · subst h; omega
      · subst h
        rw [← Char.ofNat_toNat l, hl]
  · rw [if_neg hc]
    constructor
    · intro h; exact Or.inl h
    · rintro (h | h)
      · exact h
      · subst h; exact absurd ⟨h1, h2⟩ hc

theorem foldOrbit_j : foldOrbit 'j' = ['j', 'J'] := by decide
theorem foldOrbit_p : foldOrbit 'p' = ['p', 'P'] := by decide
theorem foldOrbit_e : foldOrbit 'e' = ['e', 'E'] := by decide
theorem foldOrbit_g : foldOrbit 'g' = ['g', 'G'] := by decide

theorem lower_j (c : Char) : c.toLower = 'j' ↔ c = 'j' ∨ c = 'J' :=
  toLower_eq_iff c 'j' 'J' (by decide) (by decide) (by decide)
theorem lower_p (c : Char) : c.toLower = 'p' ↔ c = 'p' ∨ c = 'P' :=
  toLower_eq_iff c 'p' 'P' (by decide) (by decide) (by decide)
theorem lower_e (c : Char) : c.toLower = 'e' ↔ c = 'e' ∨ c = 'E' :=
  toLower_eq_iff c 'e' 'E' (by decide) (by decide) (by decide)
theorem lower_g (c : Char) : c.toLower = 'g' ↔ c = 'g' ∨ c = 'G' :=
  toLower_eq_iff c 'g' 'G' (by decide) (by decide) (by decide)

theorem flatMap_ite_single {α β : Type} (c : Prop) [Decidable c] (t : α) (f : α → List β) :
    (if c then [t] else []).flatMap f = if c then f t else [] := by
  split <;> simp [List.flatMap]

theorem flatMap_ite_nil {α β : Type} (c : Prop) [Decidable c] (l : List α) (f : α → List β) :
    (if c then l else []).flatMap f = if c then l.flatMap f else [] := by
  split <;> simp [List.flatMap]

theorem map_ite_nil {α β : Type} (c : Prop) [Decidable c] (l : List α) (f : α → β) :
    (if c then l else []).map f = if c then l.map f else [] := by
  split <;> simp

theorem imageTail_run (p : Nat) (rest : Str) (caps : List (Nat × Nat × Nat)) :
    imageTail.run ⟨p, rest, caps⟩ ≠ [] ↔
      ∃ ext, rest = '.' :: ext ∧
        (ext.map Char.toLower = ['j', 'p', 'g'] ∨ ext.map Char.toLower = ['j', 'p', 'e', 'g']) := by
  rcases rest with _ | ⟨a, _ | ⟨b, _ | ⟨c, _ | ⟨d, _ | ⟨e, _ | ⟨f, r⟩⟩⟩⟩⟩⟩
  all_goals simp only [imageTail, Regex.run, foldOrbit_j, foldOrbit_p, foldOrbit_e, foldOrbit_g,
    flatMap_ite_single, flatMap_ite_nil, map_ite_nil, List.flatMap_nil, List.flatMap_append,
    List.flatMap_cons, List.map_append, List.map_cons, List.map_nil, List.append_nil, List.nil_append,
    List.mem_cons, List.mem_singleton, List.not_mem_nil, or_false]
  all_goals ((try split_ifs) <;> simp_all [lower_j, lower_p, lower_e, lower_g])

theorem starIter_self_mem (step : Thread → List Thread) (n : Nat) (t : Thread) :
    t ∈ starIter step n t := by
  cases n <;> simp [starIter]

theorem anyCharNotNL_rest (t u : Thread) (h : u ∈ Regex.anyCharNotNL.run t) :
    ∃ x, t.rest = x :: u.rest := by
  obtain ⟨p, rest, caps⟩ := t
  cases rest with
  | nil => simp [Regex.run] at h
  | cons x xs =>
    by_cases hx : x = '\n'
    · simp [Regex.run, hx] at h
    · simp [Regex.run, hx] at h
      subst h
      exact ⟨x, rfl⟩

theorem starIter_rest (n : Nat) : ∀ (t u : Thread), u ∈ starIter Regex.anyCharNotNL.run n t →
    ∃ pre, t.rest = pre ++ u.rest := by
  induction n with
  | zero =>
    intro t u h
    simp [starIter] at h
    subst h
    exact ⟨[], rfl⟩
  | succ n ih =>
    intro t u h
    simp only [starIter, List.mem_append, List.mem_flatMap, List.mem_filter, List.mem_singleton] at h
    rcases h with ⟨v, ⟨hv, _⟩, hu⟩ | h
    · obtain ⟨x, hx⟩ := anyCharNotNL_rest t v hv
      obtain ⟨pre, hpre⟩ := ih v u hu
      exact ⟨x :: pre, by rw [hx, hpre]; rfl⟩
    · subst h
      exact ⟨[], rfl⟩

theorem search_isSome (re : Regex) (s : Str) : ∀ pos : Nat,
    (re.search pos s).isSome = true ↔
      ∃ pre r, s = pre ++ r ∧ re.run ⟨pos + pre.length, r, []⟩ ≠ [] := by
  induction s with
  | nil =>
    intro pos
    constructor
    · intro h
      refine ⟨[], [], rfl, ?_⟩
      intro h0
      simp only [List.length_nil, Nat.add_zero] at h0
      simp [Regex.search, h0] at h
    · rintro ⟨pre, r, hs, hr⟩
      have h1 : pre = [] := by
        cases pre with
        | nil => rfl
        | cons a l => simp at hs
      subst h1
      simp at hs
      subst hs
      simp only [Regex.search]
      cases hrun : re.run ⟨pos, [], []⟩ with
      | nil => simp [hrun] at hr
      | cons a l => simp
  | cons c cs ih =>
    intro pos
    simp only [Regex.search]
    cases hrun : re.run ⟨pos, c :: cs, []⟩ with
    | cons a l =>
      simp only [Option.isSome_some, true_iff]
      exact ⟨[], c :: cs, rfl, by simp [hrun]⟩
    | nil =>
      simp only []
      rw [ih (pos + 1)]
      constructor
      · rintro ⟨pre, r, hs, hr⟩
        refine ⟨c :: pre, r, by rw [hs]; rfl, ?_⟩
        have : pos + (c :: pre).length = pos + 1 + pre.length := by simp; omega
        rw [this]; exact hr
      · rintro ⟨pre, r, hs, hr⟩
        cases pre with
        | nil =>
          simp at hs
          subst hs
          simp [hrun] at hr
        | cons a l =>
          simp at hs
          refine ⟨l, r, hs.2, ?_⟩
          have : pos + (a :: l).length = pos + 1 + l.length := by simp; omega
          rw [this] at hr; exact hr

theorem flatMap_ne_nil {α β : Type} (l : List α) (f : α → List β) :
    l.flatMap f ≠ [] ↔ ∃ u ∈ l, f u ≠ [] := by
  induction l with
  | nil => simp
  | cons a l ih =>
    simp only [List.flatMap_cons, ne_eq, List.append_eq_nil, not_and_or, List.mem_cons,
      exists_eq_or_imp]
    rw [← ne_eq (l.flatMap f), ih]

theorem imageRegex_run_ne_nil (t : Thread) (h : imageRegex.run t ≠ []) :
    ∃ pre ext, t.rest = pre ++ '.' :: ext ∧
        (ext.map Char.toLower = ['j', 'p', 'g'] ∨ ext.map Char.toLower = ['j', 'p', 'e', 'g']) := by
  rw [imageRegex_eq] at h
  simp only [Regex.run] at h
  rw [flatMap_ne_nil] at h
  obtain ⟨u, hu, hrun⟩ := h
  simp only [List.mem_map] at hu
  obtain ⟨v, hv, rfl⟩ := hu
  obtain ⟨pre, hpre⟩ := starIter_rest _ _ _ hv
  obtain ⟨ext, hext, hcase⟩ := (imageTail_run _ _ _).1 hrun
  exact ⟨pre, ext, by rw [hpre, hext], hcase⟩

theorem imageRegex_run_of_ext (p : Nat) (caps : List (Nat × Nat × Nat)) (ext : Str)
    (h : ext.map Char.toLower = ['j', 'p', 'g'] ∨ ext.map Char.toLower = ['j', 'p', 'e', 'g']) :
    imageRegex.run ⟨p, '.' :: ext, caps⟩ ≠ [] := by
  rw [imageRegex_eq]
  simp only [Regex.run]
  rw [flatMap_ne_nil]
  refine ⟨⟨p, '.' :: ext, (1, p, p) :: caps⟩, ?_, ?_⟩
  · simp only [List.mem_map]
    exact ⟨⟨p, '.' :: ext, caps⟩, starIter_self_mem _ _ _, rfl⟩
  · exact (imageTail_run _ _ _).2 ⟨ext, rfl, h⟩

theorem imageRegex_matchString (s : Str) :
    imageRegex.MatchString s = true ↔ HasJpegExtension s := by
  unfold Regex.MatchString HasJpegExtension
  rw [search_isSome]
  constructor
  · rintro ⟨pre, r, hs, hr⟩
    obtain ⟨pre2, ext, h2, hc⟩ := imageRegex_run_ne_nil _ hr
    simp only at h2
    exact ⟨pre ++ pre2, ext, by rw [hs, h2, List.append_assoc], hc⟩
  · rintro ⟨base, ext, hs, hc⟩
    exact ⟨base, '.' :: ext, hs, imageRegex_run_of_ext _ _ ext hc⟩

/-- Claim C1: `imageRegex.MatchString(s)` is true exactly when `s` ends with a dot followed by
`jpg` or `jpeg` in any mix of upper- and lower-case letters; it accepts `image.jpg`,
`image.JPG`, `image.jpeg` and `image.JPeG`, and rejects `image.JPG.zip`, `imageJPG` and
`movie.MOV`. -/
theorem imageRegex_matchString_iff_jpeg_extension :
    (∀ s : Str, imageRegex.MatchString s = true ↔ HasJpegExtension s) ∧
      imageRegex.MatchString "image.jpg".toList = true ∧
      imageRegex.MatchString "image.JPG".toList = true ∧
      imageRegex.MatchString "image.jpeg".toList = true ∧
      imageRegex.MatchString "image.JPeG".toList = true ∧
      imageRegex.MatchString "image.JPG.zip".toList = false ∧
      imageRegex.MatchString "imageJPG".toList = false ∧
      imageRegex.MatchString "movie.MOV".toList = false := by
  refine ⟨imageRegex_matchString, ?_, ?_, ?_, ?_, ?_, ?_, ?_⟩ <;> decide

theorem split_no_sep (sep : Char) (b : Str) (h : sep ∉ b) : Split sep b = [b] := by
  induction b with
  | nil => rfl
  | cons c cs ih =>
    simp only [List.mem_cons, not_or] at h
    have hc : c ≠ sep := fun e => h.1 e.symm
    simp [Split, hc, ih h.2]

theorem split_append_sep (sep : Char) (a b : Str) (h : sep ∉ a) :
    Split sep (a ++ sep :: b) = a :: Split sep b := by
  induction a with
  | nil => simp [Split]
  | cons c cs ih =>
    simp only [List.mem_cons, not_or] at h
    have hc : c ≠ sep := fun e => h.1 e.symm
    simp [Split, hc, ih h.2]

theorem split_two (sep : Char) (a b : Str) (ha : sep ∉ a) (hb : sep ∉ b) :
    Split sep (a ++ sep :: b) = [a, b] := by
  rw [split_append_sep sep a b ha, split_no_sep sep b hb]

theorem parceLocationString_of_fields {F : Type} (ParseFloat : Str → Except Str F)
    (a b : Str) (x y : F) (ha : ',' ∉ a) (hb : ',' ∉ b)
    (hx : ParseFloat a = .ok x) (hy : ParseFloat b = .ok y) :
    parceLocationString ParseFloat (a ++ ',' :: b) = .ok (x, y) := by
  unfold parceLocationString
  simp [split_two ',' a b ha hb, hx, hy]

/-- Claim C2: For every string `a,b` whose two fields hold no comma and are accepted by
`strconv.ParseFloat`, `parceLocationString` returns, without a fatal error, the parsed
value of the first field as latitude and the parsed value of the second as longitude. -/
theorem parceLocationString_two_fields {F : Type} (ParseFloat : Str → Except Str F)
    (a b : Str) (x y : F) (ha : ',' ∉ a) (hb : ',' ∉ b)
    (hx : ParseFloat a = .ok x) (hy : ParseFloat b = .ok y) :
    parceLocationString ParseFloat (a ++ ',' :: b) = .ok (x, y) :=
  parceLocationString_of_fields ParseFloat a b x y ha hb hx hy

/-- Claim C2, on the strings of the test: with the numerals read exactly, `0.0,0.0` gives
`(0, 0)` and `53.0326000,158.6307500` gives `(53.0326, 158.63075)`. -/
theorem parceLocationString_two_fields_witness :
    parceLocationString decimalParseFloat "0.0,0.0".toList = .ok (⟨0, 0⟩, ⟨0, 0⟩) ∧
      parceLocationString decimalParseFloat "53.0326000,158.6307500".toList
        = .ok (⟨530326, 4⟩, ⟨15863075, 5⟩) ∧
      decimalParseFloat "53.0326".toList = .ok ⟨530326, 4⟩ ∧
      decimalParseFloat "158.63075".toList = .ok ⟨15863075, 5⟩ :=
  ⟨parceLocationString_two_fields decimalParseFloat "0.0".toList "0.0".toList ⟨0, 0⟩ ⟨0, 0⟩
      (by decide) (by decide) rfl rfl,
    parceLocationString_two_fields decimalParseFloat "53.0326000".toList "158.6307500".toList
      ⟨530326, 4⟩ ⟨15863075, 5⟩ (by decide) (by decide) rfl rfl,
    rfl, rfl⟩

theorem parceLocationString_no_comma {F : Type} (ParseFloat : Str → Except Str F) (s : Str)
    (h : ',' ∉ s) :
    parceLocationString ParseFloat s = .error (.fatal (.cantParceLocation s)) := by
  unfold parceLocationString
  simp [split_no_sep ',' s h, CheckErrorFatal]

/-- Claim C5: `parceLocationString` ends in the panic of `CheckErrorFatal` exactly when the
string does not split on the comma into two fields or `strconv.ParseFloat` rejects one of
the two; it then returns no pair, it never indexes the split result out of range, and a
string without a comma fails on the count of fields. -/
theorem parceLocationString_fatal_iff {F : Type} (ParseFloat : Str → Except Str F) (s : Str) :
    ((∃ e, parceLocationString ParseFloat s = .error (.fatal e)) ↔
        ((Split ',' s).length ≠ 2 ∨
          ∃ a b, Split ',' s = [a, b] ∧
            ((∃ e, ParseFloat a = .error e) ∨ (∃ e, ParseFloat b = .error e)))) ∧
      ((∃ e, parceLocationString ParseFloat s = .error (.fatal e)) →
        ∀ p, parceLocationString ParseFloat s ≠ .ok p) ∧
      parceLocationString ParseFloat s ≠ .error .indexOutOfRange ∧
      (',' ∉ s →
        parceLocationString ParseFloat s = .error (.fatal (.cantParceLocation s))) := by
  refine ⟨?_, ?_, ?_, parceLocationString_no_comma ParseFloat s⟩
  all_goals unfold parceLocationString
  all_goals simp only []
  all_goals generalize Split ',' s = l
  all_goals rcases l with _ | ⟨a, _ | ⟨b, _ | ⟨c, r⟩⟩⟩
  all_goals try simp [CheckErrorFatal]
  all_goals
    cases ha : ParseFloat a <;> cases hb : ParseFloat b <;> simp [ha, hb]
  all_goals exact ⟨a, b, ⟨rfl, rfl⟩, by simp [ha, hb]⟩

/-- Claim C5, on examples: no comma, three fields and a field that is not a number each end in
the panic of `CheckErrorFatal`. -/
theorem parceLocationString_fatal_iff_witness :
    parceLocationString decimalParseFloat "53.0326".toList
        = .error (.fatal (.cantParceLocation "53.0326".toList)) ∧
      parceLocationString decimalParseFloat "1.0,2.0,3.0".toList
        = .error (.fatal (.cantParceLocation "1.0,2.0,3.0".toList)) ∧
      (∃ e, parceLocationString decimalParseFloat "1.0,north".toList = .error (.fatal e)) :=
  ⟨(parceLocationString_fatal_iff decimalParseFloat "53.0326".toList).2.2.2 (by decide),
    rfl,
    (parceLocationString_fatal_iff decimalParseFloat "1.0,north".toList).1.2
      (Or.inr ⟨"1.0".toList, "north".toList, rfl, Or.inr ⟨_, rfl⟩⟩)⟩
theorem wrap64_bounds (x : Int) : -9223372036854775808 ≤ wrap64 x ∧ wrap64 x < 9223372036854775808 := by
  unfold wrap64
  omega

theorem wrap64_of_fits (x : Int) (h1 : -9223372036854775808 ≤ x) (h2 : x < 9223372036854775808) : wrap64 x = x := by
  unfold wrap64
  omega

theorem wrap64_fits_of_eq (x : Int) (h : wrap64 x = x) : -9223372036854775808 ≤ x ∧ x < 9223372036854775808 := by
  have := wrap64_bounds x
  omega

theorem sub_raw_eq (t u : Time) :
    wrap64 (wrap64 (wrap64 (t.sec - u.sec) * 1000000000) + (t.nsec - u.nsec))
      = wrap64 (t.nanosBetween u) := by
  unfold wrap64 Time.nanosBetween
  omega

theorem add_exact (u : Time) (d : Int) (hu : u.inRange) (h1 : -9223372036854775808 ≤ d) (h2 : d < 9223372036854775808) :
    (u.Add d).sec * 1000000000 + (u.Add d).nsec = u.sec * 1000000000 + u.nsec + d ∧
      0 ≤ (u.Add d).nsec ∧ (u.Add d).nsec < 1000000000 := by
  obtain ⟨a, b, c, e⟩ := hu
  simp only [Time.Add, Time.addSec, wrap64, remGo, quoGo, decide_eq_decide]
  split_ifs <;> simp only [] <;> omega

theorem sub_clamped (t u : Time) (ht : t.inRange) (hu : u.inRange) :
    t.Sub u =
      if t.nanosBetween u < minDuration then minDuration
      else if maxDuration < t.nanosBetween u then maxDuration
      else t.nanosBetween u := by
  have hb := wrap64_bounds (t.nanosBetween u)
  have hadd := add_exact u (wrap64 (t.nanosBetween u)) hu hb.1 hb.2
  have hfits := wrap64_of_fits (t.nanosBetween u)
  obtain ⟨_, _, ht3, ht4⟩ := ht
  obtain ⟨_, _, hu3, hu4⟩ := hu
  unfold Time.Sub
  rw [sub_raw_eq]
  simp only [Time.Equal, Time.Before, decide_eq_true_eq, minDuration, maxDuration,
    Bool.decide_and, Bool.decide_or, Bool.and_eq_true, Bool.or_eq_true]
  generalize wrap64 (t.nanosBetween u) = d at *
  generalize u.Add d = A at *
  have hD : t.nanosBetween u = (t.sec - u.sec) * 1000000000 + (t.nsec - u.nsec) := rfl
  generalize t.nanosBetween u = D at *
  have heq : (A.sec = t.sec ∧ A.nsec = t.nsec) ↔ d = D := by
    constructor
    · rintro ⟨e1, e2⟩
      omega
    · intro e
      constructor <;> omega
  have hbefore : (t.sec < u.sec ∨ t.sec = u.sec ∧ t.nsec < u.nsec) ↔ D < 0 := by
    constructor
    · rintro (e | ⟨e1, e2⟩) <;> omega
    · intro e
      by_cases e1 : t.sec < u.sec
      · exact Or.inl e1
      · exact Or.inr (by constructor <;> omega)
  simp only [heq, hbefore]
  clear heq hbefore
  unfold Duration
  by_cases h1 : -9223372036854775808 ≤ D
  · by_cases h2 : D < 9223372036854775808
    · have := hfits h1 h2
      split_ifs <;> omega
    · split_ifs <;> omega
  · split_ifs <;> omega

theorem walkFn_delta {F : Type} (uni : Char → Bool) (srcS dstS suffix : Str) (delta : Duration)
    (setGPS : Bool) (lat lon : F) (offsetTime : Time) (info : FileInfo) (path : Str)
    (f : Option FileInfo) (err : Option Str) (a : Action F)
    (ha : a ∈ (walkFn uni srcS dstS suffix delta setGPS lat lon offsetTime info path f err).1)
    (src dst : Str) (d : Duration) (z : Str) (g : Bool) (la lo : F) (loc : Location)
    (hp : a = .processFile src dst d z g la lo loc) :
    d = delta ∧ g = setGPS ∧ la = lat ∧ lo = lon ∧ loc = offsetTime.Location := by
  subst hp
  unfold walkFn at ha
  cases err with
  | some e => simp at ha
  | none =>
    cases f with
    | none => simp at ha
    | some f =>
      simp only [] at ha
      split at ha <;> simp only [List.mem_append, List.mem_singleton] at ha
      all_goals
        split_ifs at ha <;> simp at ha
      all_goals
        obtain ⟨-, -, h1, -, h2, h3, h4, h5⟩ := ha
        exact ⟨h1, h2, h3, h4, h5⟩

mutual
theorem walk_actions {F : Type} (fn : WalkFunc F) (P : Action F → Prop)
    (hP : ∀ p f e, ∀ a ∈ (fn p f e).1, P a) (path : Str) :
    ∀ t : Tree, ∀ a ∈ (walk fn path t).1, P a
  | .file name id => by
    intro a ha
    simp only [walk] at ha
    exact hP _ _ _ a ha
  | .lstatErr name err => by
    intro a ha
    simp only [walk] at ha
    exact hP _ _ _ a ha
  | .dir name id readErr entries => by
    intro a ha
    simp only [walk] at ha
    split_ifs at ha
    · exact hP _ _ _ a ha
    · simp only [List.mem_append] at ha
      rcases ha with ha | ha
      · exact hP _ _ _ a ha
      · exact walkEntries_actions fn P hP path entries a ha
theorem walkEntries_actions {F : Type} (fn : WalkFunc F) (P : Action F → Prop)
    (hP : ∀ p f e, ∀ a ∈ (fn p f e).1, P a) (path : Str) :
    ∀ ts : List Tree, ∀ a ∈ (walkEntries fn path ts).1, P a
  | [] => by
    intro a ha
    simp [walkEntries] at ha
  | .lstatErr name err :: ts => by
    intro a ha
    simp only [walkEntries] at ha
    split_ifs at ha
    · exact hP _ _ _ a ha
    · simp only [List.mem_append] at ha
      rcases ha with ha | ha
      · exact hP _ _ _ a ha
      · exact walkEntries_actions fn P hP path ts a ha
  | .file name id :: ts => by
    intro a ha
    simp only [walkEntries] at ha
    split_ifs at ha
    · exact walk_actions fn P hP _ (.file name id) a ha
    · simp only [List.mem_append] at ha
      rcases ha with ha | ha
      · exact walk_actions fn P hP _ (.file name id) a ha
      · exact walkEntries_actions fn P hP path ts a ha
  | .dir name id readErr entries :: ts => by
    intro a ha
    simp only [walkEntries] at ha
    split_ifs at ha
    · exact walk_actions fn P hP _ (.dir name id readErr entries) a ha
    · simp only [List.mem_append] at ha
      rcases ha with ha | ha
      · exact walk_actions fn P hP _ (.dir name id readErr entries) a ha
      · exact walkEntries_actions fn P hP path ts a ha
end

theorem Walk_actions {F : Type} (fn : WalkFunc F) (P : Action F → Prop)
    (hP : ∀ p f e, ∀ a ∈ (fn p f e).1, P a) (root : Str) (t : Tree) :
    ∀ a ∈ (Walk root t fn).1, P a := by
  intro a ha
  unfold Walk at ha
  simp only [] at ha
  split_ifs at ha <;> exact walk_actions fn P hP root t a ha

theorem mainWalk_params {F X : Type} (env : Env F X) (flags : Flags) (s : Setup F)
    (a : Action F) (ha : a ∈ (mainWalk env flags s).1)
    (src dst : Str) (d : Duration) (z : Str) (g : Bool) (la lo : F) (loc : Location)
    (hp : a = .processFile src dst d z g la lo loc) :
    d = s.delta ∧ g = s.setGPS ∧ la = s.lat ∧ lo = s.lon ∧ loc = s.offsetTime.Location := by
  revert src dst d z g la lo loc
  refine Walk_actions _ (fun a => ∀ src dst d z g la lo loc,
    a = .processFile src dst d z g la lo loc →
      d = s.delta ∧ g = s.setGPS ∧ la = s.lat ∧ lo = s.lon ∧ loc = s.offsetTime.Location)
    ?_ _ _ a ha
  intro p f e a ha src dst d z g la lo loc hp
  exact walkFn_delta _ _ _ _ _ _ _ _ _ _ p f e a ha src dst d z g la lo loc hp

theorem getDateTimeDelta_fst {F X : Type} (lib : ExifLib F X) (Parse : Str → Except Str Time)
    (metadata : X) (s : Str) (w w1 : World F) :
    (getDateTimeDelta lib Parse metadata s w).1 = (getDateTimeDelta lib Parse metadata s w1).1 := by
  unfold getDateTimeDelta
  cases Parse s with
  | error e => rfl
  | ok r =>
    cases lib.DateTime metadata with
    | none => rfl
    | some t => rfl

theorem mainSetup_ok {F X : Type} (env : Env F X) (flags : Flags) (w w' : World F)
    (s : Setup F) (h : mainSetup env flags w = (.ok s, w')) :
    (flags.fileNameString ≠ [] →
        ∃ metadata, getExifForFile env.lib flags.fileNameString (w.logf .starting) = .ok metadata ∧
          (getDateTimeDelta env.lib env.Parse metadata flags.timeString (w.logf .starting)).1
            = .ok s.delta) ∧
      (flags.fileNameString = [] → s.delta = flags.delta) ∧
      flags.infoMode = false ∧
      s.nameSuffix = mainNameSuffix flags ∧
      parceLocationString env.ParseFloat flags.location = .ok (s.lat, s.lon) ∧
      s.setGPS = decide (flags.location ≠ []) ∧
      env.Parse ("2006-01-02T15:04:05".toList ++ flags.offsetString) = .ok s.offsetTime ∧
      env.Stat flags.srcPathString = .ok s.srcPathInfo := by
  unfold mainSetup at h
  simp only [] at h
  split at h
  · simp at h
  · rename_i delta w1 hr
    split at h
    · simp at h
    · rename_i hinfo
      split at h
      · simp at h
      · rename_i w2 hmk
        split at h
        · simp at h
        · rename_i lat lon hparce
          split at h
          · simp at h
          · rename_i offsetTime hoff
            split at h
            · simp at h
            · rename_i srcPathInfo hstat
              simp only [Prod.mk.injEq, Except.ok.injEq] at h
              obtain ⟨hs, -⟩ := h
              subst hs
              refine ⟨?_, ?_, by simpa using hinfo, rfl, hparce, rfl, hoff, hstat⟩
              · intro hf
                rw [if_pos hf] at hr
                split at hr
                · simp at hr
                · rename_i metadata hmeta
                  refine ⟨metadata, hmeta, ?_⟩
                  split at hr
                  · simp at hr
                  · rename_i d w3 hd
                    simp only [Prod.mk.injEq, Except.ok.injEq] at hr
                    rw [hd]
                    exact congrArg Except.ok hr.1
              · intro hf
                rw [if_neg (by simpa using hf)] at hr
                simp only [Prod.mk.injEq, Except.ok.injEq] at hr
                exact hr.1.symm

theorem getDateTimeDelta_value {F X : Type} (lib : ExifLib F X) (Parse : Str → Except Str Time)
    (metadata : X) (s : Str) (w : World F) (T R : Time)
    (hR : Parse s = .ok R) (hT : lib.DateTime metadata = some T) :
    (getDateTimeDelta lib Parse metadata s w).1 = .ok (R.Sub T) := by
  unfold getDateTimeDelta
  rw [hR]
  simp only []
  rw [hT]

/-- Claim C3, as the code has it. For a reference file with capture time `T` and a real-time
string that parses to `R`, `getDateTimeDelta` returns `R - T` in nanoseconds when that
fits a `time.Duration`, and the largest or the smallest duration when it does not; when a
reference file is given `main` takes this value as the delta, whatever `-d` was, and hands
it to every call of `processFile`. -/
theorem getDateTimeDelta_saturating {F X : Type} (env : Env F X) (flags : Flags)
    (w : World F) (metadata : X) (T R : Time)
    (hf : flags.fileNameString ≠ [])
    (hm : getExifForFile env.lib flags.fileNameString (w.logf .starting) = .ok metadata)
    (hT : env.lib.DateTime metadata = some T)
    (hR : env.Parse flags.timeString = .ok R)
    (hTr : T.inRange) (hRr : R.inRange) :
    (∀ w1 : World F,
        (getDateTimeDelta env.lib env.Parse metadata flags.timeString w1).1
          = .ok (saturate (R.nanosBetween T))) ∧
      (minDuration ≤ R.nanosBetween T → R.nanosBetween T ≤ maxDuration →
        saturate (R.nanosBetween T) = R.nanosBetween T) ∧
      (∀ (s : Setup F) (w' : World F), mainSetup env flags w = (.ok s, w') →
        s.delta = saturate (R.nanosBetween T) ∧
          ∀ a ∈ (mainWalk env flags s).1, ∀ src dst d z g la lo loc,
            a = .processFile src dst d z g la lo loc → d = saturate (R.nanosBetween T)) := by
  have hsub : R.Sub T = saturate (R.nanosBetween T) := sub_clamped R T hRr hTr
  have hval : ∀ w1 : World F,
      (getDateTimeDelta env.lib env.Parse metadata flags.timeString w1).1
        = .ok (saturate (R.nanosBetween T)) := by
    intro w1
    rw [getDateTimeDelta_value env.lib env.Parse metadata flags.timeString w1 T R hR hT, hsub]
  refine ⟨hval, ?_, ?_⟩
  · intro h1 h2
    unfold saturate
    rw [if_neg (not_lt.mpr h1), if_neg (not_lt.mpr h2)]
  · intro s w' hs
    obtain ⟨h1, -⟩ := mainSetup_ok env flags w w' s hs
    obtain ⟨metadata', hm', hd⟩ := h1 hf
    rw [hm] at hm'
    cases hm'
    rw [hval] at hd
    have hdelta : s.delta = saturate (R.nanosBetween T) := (Except.ok.inj hd).symm
    refine ⟨hdelta, ?_⟩
    intro a ha src dst d z g la lo loc hp
    rw [← hdelta]
    exact (mainWalk_params env flags s a ha src dst d z g la lo loc hp).1

/-- Claim C3, witness: the reference photo of the examples was taken at 11:30:00 by its own
clock and at 11:31:00 in truth, so the delta is one minute, and `main` keeps it instead of
the `-d` value 5. -/
theorem getDateTimeDelta_saturating_witness :
    (getDateTimeDelta exampleEnv.lib exampleEnv.Parse
        (⟨some ⟨63662499000, 0, UTC⟩, none⟩ : ExampleExif) exampleFlags.timeString
        exampleWorld).1 = .ok 60000000000 ∧
      (∃ s w', mainSetup exampleEnv exampleFlags exampleWorld = (.ok s, w')) ∧
      (∀ (s : Setup Decimal) (w' : World Decimal),
        mainSetup exampleEnv exampleFlags exampleWorld = (.ok s, w') →
          s.delta = 60000000000) := by
  have h := getDateTimeDelta_saturating exampleEnv exampleFlags exampleWorld
    (⟨some ⟨63662499000, 0, UTC⟩, none⟩ : ExampleExif)
    ⟨63662499000, 0, UTC⟩ ⟨63662499060, 0, UTC⟩ (by decide) rfl rfl rfl
    (by unfold Time.inRange; decide) (by unfold Time.inRange; decide)
  have hv : saturate ((⟨63662499060, 0, UTC⟩ : Time).nanosBetween ⟨63662499000, 0, UTC⟩)
      = 60000000000 := by decide
  rw [hv] at h
  exact ⟨h.1 _, ⟨_, _, rfl⟩, fun s w' hs => (h.2.2 s w' hs).1⟩

/-- Claim C3, counterexample: a capture time in 2018 and a real time in 2400 are more than 292
years apart; `getDateTimeDelta` returns the largest duration, not their difference. -/
theorem getDateTimeDelta_far_apart_not_exact :
    exampleParse "2400-01-01T00:00:00Z".toList = .ok ⟨75705062400, 0, UTC⟩ ∧
      exampleLib.DateTime ⟨some ⟨63662499000, 0, UTC⟩, none⟩ = some ⟨63662499000, 0, UTC⟩ ∧
      (getDateTimeDelta exampleLib exampleParse ⟨some ⟨63662499000, 0, UTC⟩, none⟩
        "2400-01-01T00:00:00Z".toList exampleWorld).1 = .ok 9223372036854775807 ∧
      (⟨75705062400, 0, UTC⟩ : Time).nanosBetween ⟨63662499000, 0, UTC⟩
        = 12042563400000000000 ∧
      (getDateTimeDelta exampleLib exampleParse ⟨some ⟨63662499000, 0, UTC⟩, none⟩
        "2400-01-01T00:00:00Z".toList exampleWorld).1
        ≠ .ok ((⟨75705062400, 0, UTC⟩ : Time).nanosBetween ⟨63662499000, 0, UTC⟩) := by
  have h3 : (getDateTimeDelta exampleLib exampleParse ⟨some ⟨63662499000, 0, UTC⟩, none⟩
      "2400-01-01T00:00:00Z".toList exampleWorld).1 = .ok 9223372036854775807 := rfl
  have h4 : (⟨75705062400, 0, UTC⟩ : Time).nanosBetween ⟨63662499000, 0, UTC⟩
      = 12042563400000000000 := by decide
  refine ⟨rfl, rfl, h3, h4, ?_⟩
  rw [h3, h4]
  intro h
  exact absurd (Except.ok.inj h) (by decide)

theorem getExifForFile_ok {F X : Type} (lib : ExifLib F X) (src : Str) (w : World F)
    (bytes : Bytes) (metadata : X) (hr : w.fs.read src = .ok bytes)
    (hd : lib.Decode bytes = .ok metadata) : getExifForFile lib src w = .ok metadata := by
  unfold getExifForFile
  rw [hr]
  simp only []
  rw [hd]

theorem processFile_log {F X : Type} (lib : ExifLib F X) (dryRun : Bool) (src dst : Str)
    (delta : Duration) (z : Str) (setGPS : Bool) (lat lon : F) (location : Location)
    (w : World F) (metadata : X) (t : Time)
    (hm : getExifForFile lib src w = .ok metadata) (ht : lib.DateTime metadata = some t) :
    (processFile lib dryRun src dst delta z setGPS lat lon location w).2.log =
      w.log ++ [.change src dst t ((t.In location).Add delta)
        (if setGPS then some (lat, lon) else none)] := by
  unfold processFile
  rw [hm]
  simp only []
  rw [ht]
  simp only []
  cases dryRun with
  | true => rfl
  | false =>
    simp only [Bool.false_eq_true, if_false, World.logf]
    split
    · rfl
    · split
      · rfl
      · split <;> rfl

theorem processFile_writes {F X : Type} (lib : ExifLib F X) (src dst : Str)
    (delta : Duration) (z : Str) (setGPS : Bool) (lat lon : F) (location : Location)
    (w : World F) (bytes out : Bytes) (metadata : X) (t : Time)
    (hr : w.fs.read src = .ok bytes) (hd : lib.Decode bytes = .ok metadata)
    (ht : lib.DateTime metadata = some t) (hc : w.fs.createErr dst = none)
    (hcopy : lib.Copy (if src = dst then [] else bytes)
      (if setGPS then
        lib.SetGPSInfo (lib.SetDateTime metadata ((t.In location).Add delta))
          { Time := (t.In location).Add delta, Lat := lat, Long := lon }
        else lib.SetDateTime metadata ((t.In location).Add delta)) = .ok out) :
    processFile lib false src dst delta z setGPS lat lon location w =
      (.ok (), { fs := w.fs.write dst out,
                 log := w.log ++ [.change src dst t ((t.In location).Add delta)
                   (if setGPS then some (lat, lon) else none)] }) := by
  unfold processFile
  rw [getExifForFile_ok lib src w bytes metadata hr hd]
  simp only []
  rw [ht]
  simp only [Bool.false_eq_true, if_false, World.logf]
  rw [hr]
  simp only []
  rw [hc]
  simp only []
  rw [hcopy]

theorem in_own_location_add_zero (t : Time) (hv : t.valid) : (t.In t.Location).Add 0 = t := by
  obtain ⟨h1, h2, h3, h4⟩ := hv
  obtain ⟨sec, nsec, loc⟩ := t
  simp only [Time.In, Time.Location, Time.Add, Time.addSec, quoGo, remGo, wrap64] at *
  simp only [le_refl, if_true, Int.zero_ediv, mul_zero, sub_zero, add_zero, ge_iff_le,
    decide_eq_decide]
  rw [if_neg (by omega), if_neg (by omega)]
  simp only [lt_self_iff_false, iff_false, not_lt]
  rw [if_pos (by omega)]
  congr 1
  omega

/-- Claim C4: The corrected timestamp that `processFile` computes (and logs) is
`capturedTime.In(targetTimezone).Add(delta)`; with delta 0 and the capture time's own
timezone it is the capture time itself: the same instant, location, date and clock
fields, and correcting it again changes nothing. -/
theorem processFile_corrected_time {F X : Type} (lib : ExifLib F X) (dryRun : Bool)
    (src dst : Str) (delta : Duration) (z : Str) (setGPS : Bool) (lat lon : F)
    (location : Location) (w : World F) (metadata : X) (t : Time)
    (hm : getExifForFile lib src w = .ok metadata) (ht : lib.DateTime metadata = some t)
    (hv : t.valid) :
    (processFile lib dryRun src dst delta z setGPS lat lon location w).2.log =
        w.log ++ [.change src dst t ((t.In location).Add delta)
          (if setGPS then some (lat, lon) else none)] ∧
      (processFile lib dryRun src dst 0 z setGPS lat lon t.Location w).2.log =
        w.log ++ [.change src dst t t (if setGPS then some (lat, lon) else none)] ∧
      (t.In t.Location).Add 0 = t ∧
      ((t.In t.Location).Add 0).Equal t = true ∧
      ((t.In t.Location).Add 0).Date = t.Date ∧
      ((t.In t.Location).Add 0).Clock = t.Clock ∧
      ((((t.In t.Location).Add 0).In ((t.In t.Location).Add 0).Location).Add 0)
        = (t.In t.Location).Add 0 := by
  have h0 := in_own_location_add_zero t hv
  refine ⟨processFile_log lib dryRun src dst delta z setGPS lat lon location w metadata t hm ht,
    ?_, h0, ?_, ?_, ?_, ?_⟩
  · have h := processFile_log lib dryRun src dst 0 z setGPS lat lon t.Location w metadata t hm ht
    rw [h0] at h
    exact h
  · rw [h0]
    simp [Time.Equal]
  · rw [h0]
  · rw [h0]
  · rw [h0, h0]

/-- Claim C4, witness: the photo `a.jpg` of the examples, whose capture time is
2018-05-20 08:00:00 UTC, corrected with delta 0 in UTC. -/
theorem processFile_corrected_time_witness :
    (processFile exampleLib false "a.jpg".toList "b.jpg".toList 0 [] false
        (⟨0, 0⟩ : Decimal) ⟨0, 0⟩ UTC exampleWorld).2.log =
        [.change "a.jpg".toList "b.jpg".toList ⟨63662400000, 0, UTC⟩ ⟨63662400000, 0, UTC⟩ none] ∧
      ((⟨63662400000, 0, UTC⟩ : Time).In UTC).Add 0 = ⟨63662400000, 0, UTC⟩ ∧
      (((⟨63662400000, 0, UTC⟩ : Time).In UTC).Add 0).Date = (2018, 5, 20) ∧
      (((⟨63662400000, 0, UTC⟩ : Time).In UTC).Add 0).Clock = (8, 0, 0) := by
  have h := processFile_corrected_time exampleLib false "a.jpg".toList "b.jpg".toList 0 []
    false (⟨0, 0⟩ : Decimal) ⟨0, 0⟩ UTC exampleWorld ⟨some ⟨63662400000, 0, UTC⟩, none⟩
    ⟨63662400000, 0, UTC⟩ rfl rfl (by unfold Time.valid; decide)
  exact ⟨h.2.1, h.2.2.1, h.2.2.2.2.1.trans (by decide), h.2.2.2.2.2.1.trans (by decide)⟩

/-- Claim C8: With the dry-run flag set `processFile` leaves the file system as it was, so the
destination file exists and holds after the call what it did before; once the capture
time is read it returns right after logging the intended change. -/
theorem processFile_dryRun_writes_nothing {F X : Type} (lib : ExifLib F X) (src dst : Str)
    (delta : Duration) (z : Str) (setGPS : Bool) (lat lon : F) (location : Location)
    (w : World F) :
    (processFile lib true src dst delta z setGPS lat lon location w).2.fs = w.fs ∧
      (processFile lib true src dst delta z setGPS lat lon location w).2.fs.read dst
        = w.fs.read dst ∧
      (∀ (metadata : X) (t : Time), getExifForFile lib src w = .ok metadata →
        lib.DateTime metadata = some t →
          processFile lib true src dst delta z setGPS lat lon location w =
            (.ok (), w.logf (.change src dst t ((t.In location).Add delta)
              (if setGPS then some (lat, lon) else none)))) := by
  have hfs : (processFile lib true src dst delta z setGPS lat lon location w).2.fs = w.fs := by
    unfold processFile
    cases getExifForFile lib src w with
    | error a => rfl
    | ok metadata =>
      simp only []
      cases lib.DateTime metadata with
      | none => rfl
      | some t => rfl
  refine ⟨hfs, by rw [hfs], ?_⟩
  intro metadata t hm ht
  unfold processFile
  rw [hm]
  simp only []
  rw [ht]
  rfl

/-- Claim C8, on the examples: a dry run over `a.jpg` logs the change and leaves both the
source and the destination as they were (the destination does not exist). -/
theorem processFile_dryRun_writes_nothing_witness :
    processFile exampleLib true "a.jpg".toList "a_date_fixed.jpg".toList 60000000000 [] false
        (⟨0, 0⟩ : Decimal) ⟨0, 0⟩ UTC exampleWorld =
      (.ok (), exampleWorld.logf (.change "a.jpg".toList "a_date_fixed.jpg".toList
        ⟨63662400000, 0, UTC⟩ ⟨63662400060, 0, UTC⟩ none)) ∧
      (processFile exampleLib true "a.jpg".toList "a_date_fixed.jpg".toList 60000000000 []
        false (⟨0, 0⟩ : Decimal) ⟨0, 0⟩ UTC exampleWorld).2.fs.read "a_date_fixed.jpg".toList
        = .error "no such file or directory".toList := by
  have h := processFile_dryRun_writes_nothing exampleLib "a.jpg".toList
    "a_date_fixed.jpg".toList 60000000000 [] false (⟨0, 0⟩ : Decimal) ⟨0, 0⟩ UTC exampleWorld
  exact ⟨h.2.2 ⟨some ⟨63662400000, 0, UTC⟩, none⟩ ⟨63662400000, 0, UTC⟩ rfl rfl,
    h.2.1.trans rfl⟩

theorem parceLocationString_empty {F : Type} (ParseFloat : Str → Except Str F) :
    parceLocationString ParseFloat [] = .error (.fatal (.cantParceLocation [])) :=
  parceLocationString_no_comma ParseFloat [] (by simp)

/-- Claim C10: In every run that gets as far as the walk `setGPS` is true: the empty location
string makes `parceLocationString` panic before `setGPS` is computed, so every call of
`processFile` has `setGPS` true and the parsed coordinates; with the default `0.0,0.0`
these are what `strconv.ParseFloat` gives for `0.0`; and a file that `processFile` writes
with `setGPS` true carries a GPS record with the corrected time and the coordinates. -/
theorem main_setGPS_always_true {F X : Type} (env : Env F X) (flags : Flags) (w w' : World F)
    (s : Setup F) (h : mainSetup env flags w = (.ok s, w')) :
    s.setGPS = true ∧
      flags.location ≠ [] ∧
      parceLocationString env.ParseFloat [] = .error (.fatal (.cantParceLocation [])) ∧
      (∀ a ∈ (mainWalk env flags s).1, ∀ src dst d z g la lo loc,
        a = .processFile src dst d z g la lo loc → g = true ∧ la = s.lat ∧ lo = s.lon) ∧
      (flags.location = "0.0,0.0".toList → ∀ zero : F,
        env.ParseFloat "0.0".toList = .ok zero → s.lat = zero ∧ s.lon = zero) ∧
      (∀ (src dst : Str) (delta : Duration) (z : Str) (lat lon : F) (location : Location)
        (w1 : World F) (bytes out : Bytes) (metadata : X) (t : Time),
        w1.fs.read src = .ok bytes → env.lib.Decode bytes = .ok metadata →
        env.lib.DateTime metadata = some t → w1.fs.createErr dst = none →
        env.lib.Copy (if src = dst then [] else bytes)
          (env.lib.SetGPSInfo (env.lib.SetDateTime metadata ((t.In location).Add delta))
            { Time := (t.In location).Add delta, Lat := lat, Long := lon }) = .ok out →
        processFile env.lib false src dst delta z true lat lon location w1 =
          (.ok (), { fs := w1.fs.write dst out,
                     log := w1.log ++ [.change src dst t ((t.In location).Add delta)
                       (some (lat, lon))] })) := by
  obtain ⟨-, -, -, -, hparce, hgps, -, -⟩ := mainSetup_ok env flags w w' s h
  have hne : flags.location ≠ [] := by
    intro he
    rw [he, parceLocationString_empty] at hparce
    cases hparce
  have hset : s.setGPS = true := by
    rw [hgps]
    simpa using hne
  refine ⟨hset, hne, parceLocationString_empty env.ParseFloat, ?_, ?_, ?_⟩
  · intro a ha src dst d z g la lo loc hp
    obtain ⟨-, h2, h3, h4, -⟩ := mainWalk_params env flags s a ha src dst d z g la lo loc hp
    exact ⟨h2.trans hset, h3, h4⟩
  · intro hloc zero hz
    have h2 : parceLocationString env.ParseFloat flags.location = .ok (zero, zero) := by
      rw [hloc]
      exact parceLocationString_of_fields env.ParseFloat "0.0".toList "0.0".toList zero zero
        (by decide) (by decide) hz hz
    rw [h2] at hparce
    have h3 := Except.ok.inj hparce
    exact ⟨(congrArg Prod.fst h3).symm, (congrArg Prod.snd h3).symm⟩
  · intro src dst delta z lat lon location w1 bytes out metadata t hr hd ht hc hcopy
    have := processFile_writes env.lib src dst delta z true lat lon location w1 bytes out
      metadata t hr hd ht hc (by simpa using hcopy)
    simpa using this

/-- Claim C10, on the examples: with the default location `main` reaches the walk with
`setGPS` true and coordinates zero, and the file it writes for `a.jpg` carries the
corrected time in front and the GPS record (digits and scales of both coordinates)
behind. -/
theorem main_setGPS_always_true_witness :
    exampleSetup.setGPS = true ∧
      (∀ a ∈ (mainWalk exampleEnv exampleFlags exampleSetup).1, ∀ src dst d z g la lo loc,
        a = .processFile src dst d z g la lo loc →
          g = true ∧ la = (⟨0, 0⟩ : Decimal) ∧ lo = (⟨0, 0⟩ : Decimal)) ∧
      (main exampleEnv exampleFlags exampleWorld).2.fs.read "a_date_fixed.jpg".toList
        = .ok [63662400060, 1, 2, 3, 0, 0, 0, 0] := by
  have h := main_setGPS_always_true exampleEnv exampleFlags exampleWorld
    (mainSetup exampleEnv exampleFlags exampleWorld).2 exampleSetup rfl
  exact ⟨h.1, h.2.2.2.1, rfl⟩

theorem walkFn_file {F : Type} (uni : Char → Bool) (srcS dstS suffix : Str) (delta : Duration)
    (setGPS : Bool) (lat lon : F) (offsetTime : Time) (info : FileInfo) (path name : Str)
    (id : Nat) :
    walkFn uni srcS dstS suffix delta setGPS lat lon offsetTime info path
        (some ⟨name, false, id⟩) none =
      (expectedActions uni srcS dstS suffix delta setGPS lat lon offsetTime (.file name id),
        none) := by
  simp [walkFn, expectedActions]

theorem walkFn_dir {F : Type} (uni : Char → Bool) (srcS dstS suffix : Str) (delta : Duration)
    (setGPS : Bool) (lat lon : F) (offsetTime : Time) (info : FileInfo) (path name : Str)
    (id : Nat) (h : id ≠ info.id) :
    walkFn uni srcS dstS suffix delta setGPS lat lon offsetTime info path
        (some ⟨name, true, id⟩) none =
      ([.log (.skippingDir name)], some .SkipDir) := by
  have h2 : ¬ info.id = id := fun e => h e.symm
  simp [walkFn, SameFile, h2]

theorem walkFn_root {F : Type} (uni : Char → Bool) (srcS dstS suffix : Str) (delta : Duration)
    (setGPS : Bool) (lat lon : F) (offsetTime : Time) (info : FileInfo) (path name : Str) :
    walkFn uni srcS dstS suffix delta setGPS lat lon offsetTime info path
        (some ⟨name, true, info.id⟩) none = (([] : List (Action F)), none) := by
  simp [walkFn, SameFile]

theorem walkEntries_readable {F : Type} (uni : Char → Bool) (srcS dstS suffix : Str)
    (delta : Duration) (setGPS : Bool) (lat lon : F) (offsetTime : Time) (info : FileInfo)
    (path : Str) (entries : List Tree) (h : ∀ t ∈ entries, readableEntry info.id t) :
    walkEntries (walkFn uni srcS dstS suffix delta setGPS lat lon offsetTime info) path entries =
      (entries.flatMap (expectedActions uni srcS dstS suffix delta setGPS lat lon offsetTime),
        none) := by
  induction entries with
  | nil => rfl
  | cons t ts ih =>
    have ht := h t (List.mem_cons_self t ts)
    have hts := ih (fun u hu => h u (List.mem_cons_of_mem t hu))
    cases t with
    | lstatErr name err => exact absurd ht (by simp [readableEntry])
    | file name id =>
      simp only [walkEntries, walk, walkFn_file, hts, List.flatMap_cons]
      simp
    | dir name id readErr es =>
      obtain ⟨hid, hre⟩ := ht
      subst hre
      simp only [walkEntries, walk, walkFn_dir _ _ _ _ _ _ _ _ _ _ _ _ _ hid, hts,
        List.flatMap_cons]
      simp [expectedActions]

theorem filterMap_processed_expected {F : Type} (uni : Char → Bool) (srcS dstS suffix : Str)
    (delta : Duration) (setGPS : Bool) (lat lon : F) (offsetTime : Time) (entries : List Tree) :
    (entries.flatMap (expectedActions uni srcS dstS suffix delta setGPS lat lon
        offsetTime)).filterMap Action.processed = entries.filterMap (matchingFile srcS) := by
  induction entries with
  | nil => rfl
  | cons t ts ih =>
    simp only [List.flatMap_cons, List.filterMap_append, ih, List.filterMap_cons]
    cases t with
    | lstatErr name err => simp [expectedActions, matchingFile]
    | dir name id readErr es => simp [expectedActions, matchingFile, Action.processed]
    | file name id =>
      by_cases hm : imageRegex.MatchString name = true <;>
        simp [expectedActions, matchingFile, Action.processed, hm]

/-- Claim C9, as the code has it: on a source directory whose entries are read without
error (`os.Lstat` succeeds on each and the names of each subdirectory can be read), the
walk in `main` calls `processFile` on exactly the entries directly inside it that are not
directories and whose names the matcher accepts, in the order of the listing, and on
nothing beneath a subdirectory; called without an error, the callback answers every
directory other than the source directory with `filepath.SkipDir` and skips a
non-directory whose name does not match with a log line and a nil result; called with an
error, it logs the failure and returns the error, which ends the walk. -/
theorem walk_processes_matching_files_of_source_dir {F : Type} (uni : Char → Bool)
    (srcS dstS suffix : Str) (delta : Duration) (setGPS : Bool) (lat lon : F)
    (offsetTime : Time) (srcPathInfo : FileInfo) (rootName : Str) (entries : List Tree)
    (h : ∀ t ∈ entries, readableEntry srcPathInfo.id t) :
    Walk srcS (.dir rootName srcPathInfo.id none entries)
        (walkFn uni srcS dstS suffix delta setGPS lat lon offsetTime srcPathInfo) =
      (entries.flatMap (expectedActions uni srcS dstS suffix delta setGPS lat lon offsetTime),
        none) ∧
      (Walk srcS (.dir rootName srcPathInfo.id none entries)
        (walkFn uni srcS dstS suffix delta setGPS lat lon offsetTime srcPathInfo)).1.filterMap
          Action.processed = entries.filterMap (matchingFile srcS) ∧
      (∀ (path : Str) (f : FileInfo), f.IsDir = true → SameFile srcPathInfo f = false →
        walkFn uni srcS dstS suffix delta setGPS lat lon offsetTime srcPathInfo path (some f) none
          = ([.log (.skippingDir f.Name)], some .SkipDir)) ∧
      (∀ (path : Str) (f : FileInfo), f.IsDir = false →
        imageRegex.MatchString f.Name = false →
        walkFn uni srcS dstS suffix delta setGPS lat lon offsetTime srcPathInfo path (some f) none
          = ([.log (.skipping f.Name)], none)) ∧
      (∀ (path : Str) (f : Option FileInfo) (e : Str),
        walkFn uni srcS dstS suffix delta setGPS lat lon offsetTime srcPathInfo path f (some e)
          = ([.log (.walkFailure path e)], some (.err e))) := by
  have hw : Walk srcS (.dir rootName srcPathInfo.id none entries)
      (walkFn uni srcS dstS suffix delta setGPS lat lon offsetTime srcPathInfo) =
      (entries.flatMap (expectedActions uni srcS dstS suffix delta setGPS lat lon offsetTime),
        none) := by
    simp only [Walk, walk, walkFn_root,
      walkEntries_readable uni srcS dstS suffix delta setGPS lat lon offsetTime srcPathInfo
        srcS entries h]
    simp
  refine ⟨hw, ?_, ?_, ?_, fun _ _ _ => rfl⟩
  · rw [hw]
    exact filterMap_processed_expected uni srcS dstS suffix delta setGPS lat lon offsetTime
      entries
  · intro path f hd hs
    obtain ⟨name, isDir, id⟩ := f
    simp only at hd
    subst hd
    have hid : id ≠ srcPathInfo.id := by
      intro e
      simp [SameFile, e] at hs
    exact walkFn_dir uni srcS dstS suffix delta setGPS lat lon offsetTime srcPathInfo path
      name id hid
  · intro path f hd hm
    simp [walkFn, hd, hm]

/-- Claim C9, witness on the examples: of `a.jpg`, `notes.txt` and the directory `sub` holding `b.jpg`,
only `a.jpg` is handed to `processFile`. -/
theorem walk_processes_matching_files_of_source_dir_witness :
    (mainWalk exampleEnv exampleFlags exampleSetup).1.filterMap Action.processed
        = ["a.jpg".toList] ∧
      (mainWalk exampleEnv exampleFlags exampleSetup).2 = none := by
  have h := walk_processes_matching_files_of_source_dir (fun _ => false) ".".toList ".".toList
    defaultNameSuffix 60000000000 true (⟨0, 0⟩ : Decimal) ⟨0, 0⟩
    ⟨63271800245, 0, { name := [], initial := 10800, tx := [] }⟩ ⟨".".toList, true, 1⟩
    ".".toList
    [.file "a.jpg".toList 2, .file "notes.txt".toList 3,
      .dir "sub".toList 4 none [.file "b.jpg".toList 5]]
    (by
      intro t ht
      simp only [List.mem_cons, List.mem_singleton, List.not_mem_nil, or_false] at ht
      rcases ht with rfl | rfl | rfl <;> simp [readableEntry])
  exact ⟨h.2.1.trans (by decide), congrArg Prod.snd h.1⟩

/-- Claim C9, counterexample: in a source directory holding `a.jpg`, a directory
`lost+found` whose names cannot be read, and `z.jpg`, the callback is called on
`lost+found` with the error and returns it, not `filepath.SkipDir`; the walk stops there,
so `z.jpg`, a file directly inside the source directory with a name the matcher accepts,
is never handed to `processFile`. -/
theorem walk_stops_at_unreadable_directory :
    Walk ".".toList unreadableTree exampleWalkFn =
        ([.processFile "a.jpg".toList "out/a.jpg".toList 0 [] true ⟨0, 0⟩ ⟨0, 0⟩
            { name := [], initial := 10800, tx := [] },
          .log (.walkFailure "lost+found".toList "permission denied".toList)],
          some (.err "permission denied".toList)) ∧
      (Walk ".".toList unreadableTree exampleWalkFn).1.filterMap Action.processed
        = ["a.jpg".toList] ∧
      [Tree.file "a.jpg".toList 2,
          Tree.dir "lost+found".toList 3 (some "permission denied".toList) [],
          Tree.file "z.jpg".toList 4].filterMap (matchingFile ".".toList)
        = ["a.jpg".toList, "z.jpg".toList] ∧
      (Walk ".".toList unreadableTree exampleWalkFn).1.filterMap Action.processed
        ≠ [Tree.file "a.jpg".toList 2,
            Tree.dir "lost+found".toList 3 (some "permission denied".toList) [],
            Tree.file "z.jpg".toList 4].filterMap (matchingFile ".".toList) ∧
      (exampleWalkFn "lost+found".toList (some ⟨"lost+found".toList, true, 3⟩)
        (some "permission denied".toList)).2 ≠ some .SkipDir := by
  refine ⟨rfl, by decide, by decide, by decide, by decide⟩

theorem imageTail_run_eq (p : Nat) (ext : Str) (caps : List (Nat × Nat × Nat))
    (h : IsJpegExt ext) :
    imageTail.run ⟨p, '.' :: ext, caps⟩ =
      [⟨p + 1 + ext.length, [], (2, p + 1, p + 1 + ext.length) :: caps⟩] := by
  unfold IsJpegExt at h
  rcases ext with _ | ⟨b, _ | ⟨c, _ | ⟨d, _ | ⟨e, _ | ⟨f, r⟩⟩⟩⟩⟩
  all_goals simp only [List.map_cons, List.map_nil, List.cons.injEq, and_true, and_false,
    or_false, false_or, reduceCtorEq, lower_j, lower_p, lower_e, lower_g] at h
  all_goals simp only [imageTail, Regex.run, foldOrbit_j, foldOrbit_p, foldOrbit_e, foldOrbit_g,
    flatMap_ite_single, flatMap_ite_nil, map_ite_nil, List.flatMap_nil, List.flatMap_append,
    List.flatMap_cons, List.map_append, List.map_cons, List.map_nil, List.append_nil, List.nil_append,
    List.mem_cons, List.mem_singleton, List.not_mem_nil, or_false]
  · obtain ⟨hb, hc, hd⟩ := h
    rcases hd with rfl | rfl <;> simp [hb, hc]
  · obtain ⟨hb, hc, hd, he⟩ := h
    simp [hb, hc, hd, he]

theorem dot_not_mem_ext (ext : Str) (h : IsJpegExt ext) : '.' ∉ ext := by
  intro hm
  have h2 : '.' ∈ ext.map Char.toLower := by
    rw [List.mem_map]
    exact ⟨'.', hm, by decide⟩
  rcases h with h | h <;> rw [h] at h2 <;> revert h2 <;> decide

theorem nl_not_mem_ext (ext : Str) (h : IsJpegExt ext) : '\n' ∉ ext := by
  intro hm
  have h2 : '\n' ∈ ext.map Char.toLower := by
    rw [List.mem_map]
    exact ⟨'\n', hm, by decide⟩
  rcases h with h | h <;> rw [h] at h2 <;> revert h2 <;> decide

theorem imageTail_run_nil_of_dot (p : Nat) (x : Char) (s ext : Str)
    (caps : List (Nat × Nat × Nat)) :
    imageTail.run ⟨p, x :: (s ++ '.' :: ext), caps⟩ = [] := by
  by_contra hne
  obtain ⟨ext2, he, hv⟩ := (imageTail_run p _ caps).1 hne
  simp only [List.cons.injEq] at he
  have hdot : '.' ∈ ext2 := by
    rw [← he.2]
    simp
  exact dot_not_mem_ext ext2 hv hdot

theorem imageTail_run_nil_of_nl (p : Nat) (s : Str) (caps : List (Nat × Nat × Nat)) :
    imageTail.run ⟨p, '\n' :: s, caps⟩ = [] := by
  by_contra hne
  obtain ⟨ext2, he, -⟩ := (imageTail_run p _ caps).1 hne
  simp only [List.cons.injEq] at he
  exact absurd he.1 (by decide)

theorem imageTail_run_nil_of_empty (p : Nat) (caps : List (Nat × Nat × Nat)) :
    imageTail.run ⟨p, [], caps⟩ = [] := by
  by_contra hne
  obtain ⟨ext2, he, -⟩ := (imageTail_run p _ caps).1 hne
  simp at he

theorem imageRegex_run_eq (t : Thread) : imageRegex.run t = afterFirstGroup t.pos t := by
  rw [imageRegex_eq]
  rfl

theorem starIter_nil (n p : Nat) (caps : List (Nat × Nat × Nat)) :
    starIter Regex.anyCharNotNL.run n ⟨p, [], caps⟩ = [⟨p, [], caps⟩] := by
  cases n <;> simp [starIter, Regex.run]

theorem starIter_cons_nl (n p : Nat) (xs : Str) (caps : List (Nat × Nat × Nat)) :
    starIter Regex.anyCharNotNL.run n ⟨p, '\n' :: xs, caps⟩ = [⟨p, '\n' :: xs, caps⟩] := by
  cases n <;> simp [starIter, Regex.run]

theorem starIter_cons (n p : Nat) (x : Char) (xs : Str) (caps : List (Nat × Nat × Nat))
    (hx : x ≠ '\n') :
    starIter Regex.anyCharNotNL.run (n + 1) ⟨p, x :: xs, caps⟩ =
      starIter Regex.anyCharNotNL.run n ⟨p + 1, xs, caps⟩ ++ [⟨p, x :: xs, caps⟩] := by
  simp [starIter, Regex.run, hx]

theorem afterFirstGroup_nil (p0 p : Nat) (caps : List (Nat × Nat × Nat)) :
    afterFirstGroup p0 ⟨p, [], caps⟩ = [] := by
  simp [afterFirstGroup, starIter_nil, imageTail_run_nil_of_empty]

theorem afterFirstGroup_cons_nl (p0 p : Nat) (xs : Str) (caps : List (Nat × Nat × Nat)) :
    afterFirstGroup p0 ⟨p, '\n' :: xs, caps⟩ = [] := by
  simp [afterFirstGroup, starIter_cons_nl, imageTail_run_nil_of_nl]

theorem afterFirstGroup_cons (p0 p : Nat) (x : Char) (xs : Str) (caps : List (Nat × Nat × Nat))
    (hx : x ≠ '\n') :
    afterFirstGroup p0 ⟨p, x :: xs, caps⟩ =
      afterFirstGroup p0 ⟨p + 1, xs, caps⟩ ++ imageTail.run ⟨p, x :: xs, (1, p0, p) :: caps⟩ := by
  simp [afterFirstGroup, starIter_cons _ _ _ _ _ hx]

theorem afterFirstGroup_no_dot (p0 : Nat) (caps : List (Nat × Nat × Nat)) (s : Str) :
    ∀ p : Nat, '.' ∉ s → afterFirstGroup p0 ⟨p, s, caps⟩ = [] := by
  induction s with
  | nil => intro p _; exact afterFirstGroup_nil p0 p caps
  | cons x xs ih =>
    intro p h
    simp only [List.mem_cons, not_or] at h
    by_cases hx : x = '\n'
    · subst hx
      exact afterFirstGroup_cons_nl p0 p xs caps
    · rw [afterFirstGroup_cons p0 p x xs caps hx, ih (p + 1) h.2, List.nil_append]
      by_contra hne
      obtain ⟨ext2, he, -⟩ := (imageTail_run p _ _).1 hne
      simp only [List.cons.injEq] at he
      exact h.1 he.1.symm

theorem afterFirstGroup_of_ext (p0 : Nat) (caps : List (Nat × Nat × Nat)) (ext : Str)
    (hext : IsJpegExt ext) (pre : Str) :
    ∀ p : Nat, (∀ c ∈ pre, c ≠ '\n') →
      afterFirstGroup p0 ⟨p, pre ++ '.' :: ext, caps⟩ =
        [⟨p + pre.length + 1 + ext.length, [],
          (2, p + pre.length + 1, p + pre.length + 1 + ext.length) ::
            (1, p0, p + pre.length) :: caps⟩] := by
  induction pre with
  | nil =>
    intro p _
    simp only [List.nil_append, List.length_nil, Nat.add_zero]
    rw [afterFirstGroup_cons p0 p '.' ext caps (by decide),
      afterFirstGroup_no_dot p0 caps ext (p + 1) (dot_not_mem_ext ext hext), List.nil_append,
      imageTail_run_eq p ext _ hext]
  | cons x xs ih =>
    intro p h
    have hx : x ≠ '\n' := h x (List.mem_cons_self x xs)
    simp only [List.cons_append]
    rw [afterFirstGroup_cons p0 p x _ caps hx,
      ih (p + 1) (fun c hc => h c (List.mem_cons_of_mem x hc)),
      imageTail_run_nil_of_dot p x xs ext _, List.append_nil]
    simp only [List.length_cons]
    have e1 : p + 1 + xs.length = p + (xs.length + 1) := by omega
    rw [e1]

theorem afterFirstGroup_of_nl (p0 : Nat) (caps : List (Nat × Nat × Nat)) (ext : Str) (pre : Str) :
    ∀ p : Nat, '\n' ∈ pre → afterFirstGroup p0 ⟨p, pre ++ '.' :: ext, caps⟩ = [] := by
  induction pre with
  | nil => intro p h; simp at h
  | cons x xs ih =>
    intro p h
    simp only [List.cons_append]
    by_cases hx : x = '\n'
    · subst hx
      exact afterFirstGroup_cons_nl p0 p _ caps
    · have hxs : '\n' ∈ xs := by
        rcases List.mem_cons.1 h with e | e
        · exact absurd e.symm hx
        · exact e
      rw [afterFirstGroup_cons p0 p x _ caps hx, ih (p + 1) hxs,
        imageTail_run_nil_of_dot p x xs ext _, List.append_nil]

theorem search_of_run_cons (re : Regex) (pos : Nat) (s : Str) (t : Thread) (l : List Thread)
    (h : re.run ⟨pos, s, []⟩ = t :: l) : re.search pos s = some ⟨pos, t.pos, t.caps⟩ := by
  cases s <;> simp [Regex.search, h]

theorem search_of_run_nil (re : Regex) (pos : Nat) (c : Char) (cs : Str)
    (h : re.run ⟨pos, c :: cs, []⟩ = []) : re.search pos (c :: cs) = re.search (pos + 1) cs := by
  simp [Regex.search, h]

theorem search_image (ext b2 : Str) (hext : IsJpegExt ext) (hb2 : ∀ c ∈ b2, c ≠ '\n')
    (b1 : Str) :
    ∀ pos : Nat, (∀ u v, b1 = u ++ v → v ≠ [] → '\n' ∈ v) →
      imageRegex.search pos (b1 ++ (b2 ++ '.' :: ext)) =
        some ⟨pos + b1.length, pos + b1.length + b2.length + 1 + ext.length,
          [(2, pos + b1.length + b2.length + 1, pos + b1.length + b2.length + 1 + ext.length),
            (1, pos + b1.length, pos + b1.length + b2.length)]⟩ := by
  induction b1 with
  | nil =>
    intro pos _
    have h := afterFirstGroup_of_ext pos [] ext hext b2 pos hb2
    rw [← imageRegex_run_eq ⟨pos, b2 ++ '.' :: ext, []⟩] at h
    rw [List.nil_append, search_of_run_cons imageRegex pos _ _ _ h]
    simp
  | cons c cs ih =>
    intro pos h
    have hnl : '\n' ∈ c :: cs := h [] (c :: cs) rfl (by simp)
    have hrun : imageRegex.run ⟨pos, c :: (cs ++ (b2 ++ '.' :: ext)), []⟩ = [] := by
      rw [imageRegex_run_eq]
      have := afterFirstGroup_of_nl pos [] ext ((c :: cs) ++ b2) pos
        (List.mem_append_left b2 hnl)
      simpa using this
    rw [List.cons_append, search_of_run_nil imageRegex pos c _ hrun,
      ih (pos + 1) (fun u v e hv => h (c :: u) v (by rw [e]; rfl) hv)]
    simp only [List.length_cons]
    have e1 : pos + 1 + cs.length = pos + (cs.length + 1) := by omega
    rw [e1]

theorem split_at_last_newline (base : Str) :
    ∃ b1 b2, base = b1 ++ b2 ∧ (∀ c ∈ b2, c ≠ '\n') ∧
      (∀ u v, b1 = u ++ v → v ≠ [] → '\n' ∈ v) := by
  induction base with
  | nil => exact ⟨[], [], rfl, by simp, by simp⟩
  | cons c cs ih =>
    obtain ⟨b1, b2, hcs, hb2, hb1⟩ := ih
    by_cases hne : b1 = []
    · subst hne
      by_cases hc : c = '\n'
      · refine ⟨[c], b2, by rw [hcs]; rfl, hb2, ?_⟩
        intro u v e hv
        cases u with
        | nil =>
          simp only [List.nil_append] at e
          rw [← e, hc]
          simp
        | cons a l =>
          simp only [List.cons_append, List.cons.injEq] at e
          have := e.2
          simp only [List.nil_eq, List.append_eq_nil] at this
          exact absurd this.2 hv
      · refine ⟨[], c :: b2, by rw [hcs]; rfl, ?_, by simp⟩
        intro x hx
        rcases List.mem_cons.1 hx with e | e
        · rw [e]; exact hc
        · exact hb2 x e
    · refine ⟨c :: b1, b2, by rw [hcs]; rfl, hb2, ?_⟩
      intro u v e hv
      cases u with
      | nil =>
        simp only [List.nil_append] at e
        rw [← e]
        exact List.mem_cons_of_mem c (hb1 [] b1 rfl hne)
      | cons a l =>
        simp only [List.cons_append, List.cons.injEq] at e
        exact hb1 l v e.2 hv

theorem cut_append (sep : Char) (a b : Str) (h : sep ∉ a) :
    cut sep (a ++ sep :: b) = some (a, b) := by
  induction a with
  | nil => simp [cut]
  | cons c cs ih =>
    simp only [List.mem_cons, not_or] at h
    have hc : c ≠ sep := fun e => h.1 e.symm
    simp [cut, hc, ih h.2]

theorem extract_group1 (uni : Char → Bool) (rest : Str) :
    extract uni ('{' :: '1' :: '}' :: rest) = some (['1'], some 1, rest) := by
  simp [extract, isNameRune, extractNum, List.takeWhile, List.dropWhile]

theorem extract_group2 (uni : Char → Bool) (rest : Str) :
    extract uni ('{' :: '2' :: '}' :: rest) = some (['2'], some 2, rest) := by
  simp [extract, isNameRune, extractNum, List.takeWhile, List.dropWhile]

theorem expandLoop_group (uni : Char → Bool) (src : Str) (m : Match) (fuel : Nat)
    (dst before rest : Str) (d : Char) (n : Nat) (hb : '$' ∉ before)
    (he : extract uni ('{' :: d :: '}' :: rest) = some ([d], some n, rest)) :
    expandLoop uni src m (fuel + 1) dst (before ++ '$' :: '{' :: d :: '}' :: rest) =
      expandLoop uni src m fuel (dst ++ before ++ m.group src n) rest := by
  have hne : before ++ '$' :: '{' :: d :: '}' :: rest ≠ [] := by simp
  simp only [expandLoop, if_neg hne, cut_append '$' before _ hb, he]
  split
  · rename_i heq
    simp at heq
  · rfl

theorem expand_template (uni : Char → Bool) (src : Str) (m : Match) (nameSuffix : Str)
    (h : '$' ∉ nameSuffix) :
    expand uni ("$\x7b1\x7d".toList ++ nameSuffix ++ ".$\x7b2\x7d".toList) src m =
      m.group src 1 ++ nameSuffix ++ '.' :: m.group src 2 := by
  have hlen : ("$\x7b1\x7d".toList ++ nameSuffix ++ ".$\x7b2\x7d".toList).length + 1
      = (nameSuffix.length + 7) + 1 + 1 + 1 := by
    simp
  have h1 : "$\x7b1\x7d".toList ++ nameSuffix ++ ".$\x7b2\x7d".toList
      = [] ++ '$' :: '{' :: '1' :: '}' :: (nameSuffix ++ ['.'] ++ '$' :: '{' :: '2' :: '}' :: []) := by
    simp
  have hs : '$' ∉ nameSuffix ++ ['.'] := by
    simp only [List.mem_append, List.mem_singleton, not_or]
    exact ⟨h, by decide⟩
  unfold expand
  rw [hlen, h1, expandLoop_group uni src m _ [] [] _ '1' 1 (by simp) (extract_group1 uni _),
    expandLoop_group uni src m _ _ _ [] '2' 2 hs (extract_group2 uni _)]
  simp [expandLoop]

theorem slice_middle (a b c : Str) : slice (a ++ (b ++ c)) a.length (a.length + b.length) = b := by
  unfold slice
  rw [← List.append_assoc, ← List.length_append, List.take_left, List.drop_left]

theorem ext_length_ge (ext : Str) (h : IsJpegExt ext) : 3 ≤ ext.length := by
  rcases h with h | h <;> have := congrArg List.length h <;> simp at this <;> omega

theorem replaceAllLoop_single (re : Regex) (src : Str) (repl : Match → Str) (a : Match)
    (fuel : Nat) (hs : re.search 0 src = some a) (hstop : a.stop = src.length)
    (hpos : 1 ≤ src.length) (hend : re.search src.length [] = none) :
    replaceAllLoop re src repl (fuel + 1 + 1) 0 0 [] = slice src 0 a.start ++ repl a := by
  have hw : (if 0 < src.length then 1 else 0) = 1 := if_pos (by omega)
  have hc : src.length > 0 ∨ a.start = 0 := Or.inl (by omega)
  have hn1 : ¬ (0 + 1 > src.length) := by omega
  simp only [replaceAllLoop, Nat.zero_le, if_true, List.drop_zero, hs, hw, hstop, if_pos hc,
    if_neg hn1, Nat.le_refl, List.drop_length, hend, List.nil_append, List.append_nil]

theorem newName_of_plain_suffix (uni : Char → Bool) (base ext nameSuffix : Str)
    (hext : IsJpegExt ext) (h : '$' ∉ nameSuffix) :
    newName uni (base ++ '.' :: ext) nameSuffix = base ++ nameSuffix ++ '.' :: ext := by
  obtain ⟨b1, b2, hbase, hb2, hb1⟩ := split_at_last_newline base
  have hlen3 := ext_length_ge ext hext
  have hsearch := search_image ext b2 hext hb2 b1 0 hb1
  simp only [Nat.zero_add] at hsearch
  have hsrc : base ++ '.' :: ext = b1 ++ (b2 ++ '.' :: ext) := by
    rw [hbase, List.append_assoc]
  have hsrclen : (b1 ++ (b2 ++ '.' :: ext)).length = b1.length + b2.length + 1 + ext.length := by
    simp only [List.length_append, List.length_cons]
    omega
  have hg1 : slice (b1 ++ (b2 ++ '.' :: ext)) b1.length (b1.length + b2.length) = b2 :=
    slice_middle b1 b2 _
  have hg2 : slice (b1 ++ (b2 ++ '.' :: ext)) (b1.length + b2.length + 1)
      (b1.length + b2.length + 1 + ext.length) = ext := by
    have := slice_middle (b1 ++ (b2 ++ ['.'])) ext []
    simp only [List.append_nil, List.length_append, List.length_cons, List.length_nil,
      List.append_assoc, List.cons_append, List.nil_append] at this
    have e1 : b1.length + (b2.length + (0 + 1)) = b1.length + b2.length + 1 := by omega
    rw [e1] at this
    exact this
  have hg0 : slice (b1 ++ (b2 ++ '.' :: ext)) 0 b1.length = b1 := by
    unfold slice
    simp
  have hend : imageRegex.search (b1 ++ (b2 ++ '.' :: ext)).length [] = none := by
    simp [Regex.search, imageRegex_run_eq, afterFirstGroup_nil]
  unfold newName Regex.ReplaceAllString
  rw [hsrc, replaceAllLoop_single imageRegex _ _ _ _ hsearch (by rw [hsrclen]) (by omega) hend,
    expand_template uni _ _ nameSuffix h]
  have hl1 : List.lookup 1
      [(2, b1.length + b2.length + 1, b1.length + b2.length + 1 + ext.length),
        (1, b1.length, b1.length + b2.length)] = some (b1.length, b1.length + b2.length) := rfl
  have hl2 : List.lookup 2
      [(2, b1.length + b2.length + 1, b1.length + b2.length + 1 + ext.length),
        (1, b1.length, b1.length + b2.length)]
      = some (b1.length + b2.length + 1, b1.length + b2.length + 1 + ext.length) := rfl
  simp only [Match.group, hg0, hl1, hl2, hg1, hg2, if_neg (by decide : ¬ (1 = 0)),
    if_neg (by decide : ¬ (2 = 0))]
  rw [hbase]
  simp only [List.append_assoc]

/-- Claim C6, at the failing input: for the name `a.jpg` and the suffix `$1` the destination
name that `main` computes is `aa.jpg`; the suffix is read as a reference to the first
group, not inserted as it is. For a suffix without a dollar sign the name is the base, the
suffix, the dot and the extension, as the claim has it. -/
theorem newName_dollar_suffix_is_expanded :
    imageRegex.MatchString "a.jpg".toList = true ∧
      (∀ uni : Char → Bool, newName uni "a.jpg".toList "$1".toList = "aa.jpg".toList) ∧
      "aa.jpg".toList ≠ "a".toList ++ "$1".toList ++ ".jpg".toList ∧
      (∀ (uni : Char → Bool) (base ext nameSuffix : Str), IsJpegExt ext → '$' ∉ nameSuffix →
        newName uni (base ++ '.' :: ext) nameSuffix = base ++ nameSuffix ++ '.' :: ext) :=
  ⟨by decide, fun _ => rfl, by decide, newName_of_plain_suffix⟩

/-- Claim C7, at the failing input: with `-in .` and `-out ./` the two flag values differ as
strings, so no default suffix is applied, and for `a.jpg` the destination path is the
source path; the run then creates the destination over the source, which is left empty. -/
theorem main_destination_is_source :
    mainNameSuffix { Flags.defaults with dstPathString := "./".toList } = [] ∧
      (∀ uni : Char → Bool,
        Join ["./".toList, newName uni "a.jpg".toList []] = Join [".".toList, "a.jpg".toList]) ∧
      (∀ uni : Char → Bool,
        walkFn uni ".".toList "./".toList [] 0 true (⟨0, 0⟩ : Decimal) ⟨0, 0⟩
            ⟨63271800245, 0, UTC⟩ ⟨".".toList, true, 1⟩ "a.jpg".toList
            (some ⟨"a.jpg".toList, false, 2⟩) none =
          ([.processFile "a.jpg".toList "a.jpg".toList 0 [] true ⟨0, 0⟩ ⟨0, 0⟩ UTC], none)) ∧
      exampleWorld.fs.read "a.jpg".toList = .ok [63662400000, 1, 2, 3] ∧
      (main exampleEnv { exampleFlags with dstPathString := "./".toList } exampleWorld).2.fs.read
        "a.jpg".toList = .ok [] :=
  ⟨by decide, fun _ => rfl, fun _ => rfl, rfl, rfl⟩

end PhotoDateFix
